import Mathlib

/-!
WarpX: shape factors, momentum injectors, spectral indices, load balancing, div B, accessors

A shallow embedding of
* `compute_shape_factor<n>` and `compute_shifted_shape_factor<n>`
  (`Source/Particles/ShapeFactors.H`),
* the momentum injectors and their tagged union (`Source/Initialization/InjectorMomentum.H`),
* the enumeration `SpectralFieldIndex`
  (`Source/FieldSolver/SpectralSolver/SpectralFieldData.H`),
* the adoption rule of the load balancer (`Source/WarpX.H`),
* `warpx_computedivb` (`Source/FieldSolver/WarpX_FDTD.H`),
* the per-level step and time accessors of class `WarpX` (`Source/WarpX.H`),

and the properties proved of them.

Modelling conventions:
* `amrex::Real` is the field `ℚ` (exact arithmetic, no rounding); where a property depends
  on the rounding of a sum, as the nearest-grid-point property of order 0 does, the
  rounding is an explicit function `fl`;
* `int` is `Int` (no wrap-around; the conversion of an out-of-range real is
  undefined in C++ and is not modelled);
* `static_cast<int>(x)` discards the fractional part of `x` (rounds towards zero);
* the buffer behind the pointer `sx` is a map from slot offsets to values; a
  function body is the list of its assignments `sx[slot] = value`, in program
  order, together with the returned index;
* an `amrex::Vector` is a list; an access outside its range, undefined in C++, is `none`.
-/

namespace WarpX

/-- Memory behind the pointer `sx`, addressed by the offset from `sx`. -/
abbrev Buf := Int → ℚ

/-- The buffer in which every slot holds `0`. -/
def zeroBuf : Buf := fun _ => 0

/-- Conversion `static_cast<int>(x)` of a real to `int`: truncation towards zero. -/
def static_cast_int (x : ℚ) : Int := if 0 ≤ x then ⌊x⌋ else ⌈x⌉

/-- What a call does: the assignments `sx[slot] = value` in program order and the
returned `int`. -/
structure Run where
  stores : List (Int × ℚ)
  ret : Int

/-- Perform a list of assignments on a buffer, first assignment first. -/
def exec (sx : Buf) (stores : List (Int × ℚ)) : Buf :=
  stores.foldl (fun b s => Function.update b s.1 s.2) sx

/-- Body of `compute_shape_factor<depos_order>(sx, xmid)`: the specialisations for the
orders 0 to 3, and the generic template (no store, returns 0) for any other order. -/
def compute_shape_factor_body (depos_order : Nat) (xmid : ℚ) : Run :=
  match depos_order with
  | 0 =>
    let j := static_cast_int (xmid + 1/2)
    ⟨[(0, 1)], j⟩
  | 1 =>
    let j := static_cast_int xmid
    let xint : ℚ := xmid - j
    ⟨[(0, 1 - xint), (1, xint)], j⟩
  | 2 =>
    let j := static_cast_int (xmid + 1/2)
    let xint : ℚ := xmid - j
    ⟨[(0, 1/2 * (1/2 - xint) * (1/2 - xint)),
      (1, 3/4 - xint * xint),
      (2, 1/2 * (1/2 + xint) * (1/2 + xint))], j - 1⟩
  | 3 =>
    let j := static_cast_int xmid
    let xint : ℚ := xmid - j
    ⟨[(0, 1/6 * (1 - xint) * (1 - xint) * (1 - xint)),
      (1, 2/3 - xint * xint * (1 - xint / 2)),
      (2, 2/3 - (1 - xint) * (1 - xint) * (1 - 1/2 * (1 - xint))),
      (3, 1/6 * xint * xint * xint)], j - 1⟩
  | _ => ⟨[], 0⟩

/-- The call `compute_shape_factor<depos_order>(sx, xmid)`: the buffer after the call
and the returned index. -/
def compute_shape_factor (depos_order : Nat) (sx : Buf) (xmid : ℚ) : Buf × Int :=
  (exec sx (compute_shape_factor_body depos_order xmid).stores,
   (compute_shape_factor_body depos_order xmid).ret)

/-- Body of `compute_shifted_shape_factor<depos_order>(sx, x_old, i_new)` for the
orders 1, 2 and 3. The primary template is only declared, so no other order can be
instantiated; the last case stands for that absence and no statement below uses it. -/
def compute_shifted_shape_factor_body (depos_order : Nat) (x_old : ℚ) (i_new : Int) : Run :=
  match depos_order with
  | 1 =>
    let i := static_cast_int x_old
    let i_shift := i - i_new
    let xint : ℚ := x_old - i
    ⟨[(1 + i_shift, 1 - xint), (2 + i_shift, xint)], i⟩
  | 2 =>
    let i := static_cast_int (x_old + 1/2)
    let i_shift := i - (i_new + 1)
    let xint : ℚ := x_old - i
    ⟨[(1 + i_shift, 1/2 * (1/2 - xint) * (1/2 - xint)),
      (2 + i_shift, 3/4 - xint * xint),
      (3 + i_shift, 1/2 * (1/2 + xint) * (1/2 + xint))], i - 1⟩
  | 3 =>
    let i := static_cast_int x_old
    let i_shift := i - (i_new + 1)
    let xint : ℚ := x_old - i
    ⟨[(1 + i_shift, 1/6 * (1 - xint) * (1 - xint) * (1 - xint)),
      (2 + i_shift, 2/3 - xint * xint * (1 - xint / 2)),
      (3 + i_shift, 2/3 - (1 - xint) * (1 - xint) * (1 - 1/2 * (1 - xint))),
      (4 + i_shift, 1/6 * xint * xint * xint)], i - 1⟩
  | _ => ⟨[], 0⟩

/-- The call `compute_shifted_shape_factor<depos_order>(sx, x_old, i_new)`: the buffer
after the call and the returned index. -/
def compute_shifted_shape_factor (depos_order : Nat) (sx : Buf) (x_old : ℚ) (i_new : Int) :
    Buf × Int :=
  (exec sx (compute_shifted_shape_factor_body depos_order x_old i_new).stores,
   (compute_shifted_shape_factor_body depos_order x_old i_new).ret)

/-- Shape factor stored through the pointer `sx + 1`: slot `m` of the result holds what
`compute_shape_factor<depos_order>` stores at offset `m - 1` of its argument. -/
def shape_stores_plus_one (depos_order : Nat) (xmid : ℚ) : List (Int × ℚ) :=
  (compute_shape_factor_body depos_order xmid).stores.map (fun s => (s.1 + 1, s.2))

/-- Buffer `S_new`: the zero buffer after `compute_shape_factor<n>(sx + 1, x_new)`, so
that the weights of the new position sit in the slots `1, …, n + 1`. -/
def S_new (n : Nat) (x_new : ℚ) : Buf := exec zeroBuf (shape_stores_plus_one n x_new)

/-- Buffer `S_old`: the zero buffer after
`compute_shifted_shape_factor<n>(sx, x_old, i_new)`. -/
def S_old (n : Nat) (x_old : ℚ) (i_new : Int) : Buf :=
  (compute_shifted_shape_factor n zeroBuf x_old i_new).1

/-- One-dimensional current along the stencil: `J 0 = 0` and
`J (m+1) = J m - (S_new m - S_old m)`. -/
def J (Snew Sold : Buf) : Nat → ℚ
  | 0 => 0
  | m + 1 => J Snew Sold m - (Snew (m : Int) - Sold (m : Int))

/-- Weight that a particle at coordinate `x` gives to grid cell `c` at order `n`: the
weight `compute_shape_factor<n>` stores at slot `c - L`, with `L` the returned leftmost
index, and `0` for a cell outside the stencil `L, …, L + n`. -/
def cell_weight (n : Nat) (x : ℚ) (c : Int) : ℚ :=
  let r := compute_shape_factor n zeroBuf x
  if 0 ≤ c - r.2 ∧ c - r.2 ≤ n then r.1 (c - r.2) else 0

/-- Centred cardinal B-spline of order 1, as the specification writes it. -/
def B1 (d : ℚ) : ℚ := max 0 (1 - |d|)

/-- Centred cardinal B-spline of order 2, as the specification writes it. -/
def B2 (d : ℚ) : ℚ :=
  if |d| ≤ 1/2 then 3/4 - d ^ 2
  else if |d| ≤ 3/2 then (3/2 - |d|) ^ 2 / 2
  else 0

/-- Centred cardinal B-spline of order 3, as the specification writes it. -/
def B3 (d : ℚ) : ℚ :=
  if |d| ≤ 1 then 2/3 - d ^ 2 + |d| ^ 3 / 2
  else if |d| ≤ 2 then (2 - |d|) ^ 3 / 6
  else 0

/-- The B-spline of order `n` for `n = 1, 2, 3`. -/
def Bspline (n : Nat) (d : ℚ) : ℚ :=
  match n with
  | 1 => B1 d
  | 2 => B2 d
  | 3 => B3 d
  | _ => 0

/-! ## Momentum injectors (`Source/Initialization/InjectorMomentum.H`) -/

/-- The triple `amrex::XDim3`. -/
structure XDim3 where
  x : ℚ
  y : ℚ
  z : ℚ

/-- Struct `InjectorMomentumBoltzmann`: boost direction, boost velocity and average
velocity. -/
structure InjectorMomentumBoltzmann where
  dir : Int
  beta : ℚ
  vave : ℚ

/-- Struct `InjectorMomentumJuttner`: boost direction, boost velocity and temperature. -/
structure InjectorMomentumJuttner where
  dir : Int
  beta : ℚ
  theta : ℚ

/-- What `InjectorMomentum.H` uses but does not define: the random generator of AMReX and
its state, `std::sqrt`, the conversion of a `WarpXParser` to a `GpuParser<3>` (a function
of three reals), the struct `InjectorMomentumCustom` of `CustomMomentumProb.H`, and the
sampling bodies of the Boltzmann and Juttner injectors, which are built from random draws
and transcendental functions and are kept as given functions. -/
structure External where
  RandState : Type
  WarpXParser : Type
  InjectorMomentumCustom : Type
  RandomNormal : ℚ → ℚ → RandState → ℚ × RandState
  sqrt : ℚ → ℚ
  GpuParser : WarpXParser → ℚ → ℚ → ℚ → ℚ
  custom_ctor : String → InjectorMomentumCustom
  custom_getMomentum : InjectorMomentumCustom → ℚ → ℚ → ℚ → RandState → XDim3 × RandState
  custom_getBulkMomentum : InjectorMomentumCustom → ℚ → ℚ → ℚ → RandState → XDim3 × RandState
  boltzmann_getMomentum : InjectorMomentumBoltzmann → ℚ → ℚ → ℚ → RandState → XDim3 × RandState
  boltzmann_getBulkMomentum : InjectorMomentumBoltzmann → ℚ → ℚ → ℚ → RandState → XDim3 × RandState
  juttner_getMomentum : InjectorMomentumJuttner → ℚ → ℚ → ℚ → RandState → XDim3 × RandState
  juttner_getBulkMomentum : InjectorMomentumJuttner → ℚ → ℚ → ℚ → RandState → XDim3 × RandState

/-- Struct `InjectorMomentumConstant`; its C++ constructor stores its three arguments in
this order. -/
structure InjectorMomentumConstant where
  m_ux : ℚ
  m_uy : ℚ
  m_uz : ℚ

/-- `InjectorMomentumConstant::getMomentum`: the position arguments are unnamed and
unused. -/
def InjectorMomentumConstant.getMomentum (self : InjectorMomentumConstant) (_x _y _z : ℚ) :
    XDim3 :=
  ⟨self.m_ux, self.m_uy, self.m_uz⟩

/-- `InjectorMomentumConstant::getBulkMomentum`. -/
def InjectorMomentumConstant.getBulkMomentum (self : InjectorMomentumConstant)
    (_x _y _z : ℚ) : XDim3 :=
  ⟨self.m_ux, self.m_uy, self.m_uz⟩

/-- Struct `InjectorMomentumGaussian`: means and thermal spreads. -/
structure InjectorMomentumGaussian where
  m_ux_m : ℚ
  m_uy_m : ℚ
  m_uz_m : ℚ
  m_ux_th : ℚ
  m_uy_th : ℚ
  m_uz_th : ℚ

/-- `InjectorMomentumGaussian::getMomentum`: three draws of `amrex::RandomNormal`, in the
order of the braced initialiser. -/
def InjectorMomentumGaussian.getMomentum (E : External) (self : InjectorMomentumGaussian)
    (_x _y _z : ℚ) (s : E.RandState) : XDim3 × E.RandState :=
  let ux := E.RandomNormal self.m_ux_m self.m_ux_th s
  let uy := E.RandomNormal self.m_uy_m self.m_uy_th ux.2
  let uz := E.RandomNormal self.m_uz_m self.m_uz_th uy.2
  (⟨ux.1, uy.1, uz.1⟩, uz.2)

/-- `InjectorMomentumGaussian::getBulkMomentum`: the means. -/
def InjectorMomentumGaussian.getBulkMomentum (self : InjectorMomentumGaussian)
    (_x _y _z : ℚ) : XDim3 :=
  ⟨self.m_ux_m, self.m_uy_m, self.m_uz_m⟩

/-- Constructor `InjectorMomentumBoltzmann(t, b, d)`: `vave` is `std::sqrt(2.*t)`. -/
def InjectorMomentumBoltzmann.ctor (E : External) (t b : ℚ) (d : Int) :
    InjectorMomentumBoltzmann :=
  ⟨d, b, E.sqrt (2 * t)⟩

/-- Constructor `InjectorMomentumJuttner(t, b, d)`. -/
def InjectorMomentumJuttner.ctor (t b : ℚ) (d : Int) : InjectorMomentumJuttner :=
  ⟨d, b, t⟩

/-- Struct `InjectorMomentumRadialExpansion`. -/
structure InjectorMomentumRadialExpansion where
  u_over_r : ℚ

/-- `InjectorMomentumRadialExpansion::getMomentum`. -/
def InjectorMomentumRadialExpansion.getMomentum (self : InjectorMomentumRadialExpansion)
    (x y z : ℚ) : XDim3 :=
  ⟨x * self.u_over_r, y * self.u_over_r, z * self.u_over_r⟩

/-- `InjectorMomentumRadialExpansion::getBulkMomentum`. -/
def InjectorMomentumRadialExpansion.getBulkMomentum (self : InjectorMomentumRadialExpansion)
    (x y z : ℚ) : XDim3 :=
  ⟨x * self.u_over_r, y * self.u_over_r, z * self.u_over_r⟩

/-- Struct `InjectorMomentumParser`: the three members `m_ux_parser`, `m_uy_parser`,
`m_uz_parser` of type `GpuParser<3>`, each a function of `(x, y, z)`. -/
structure InjectorMomentumParser where
  m_ux_fn : ℚ → ℚ → ℚ → ℚ
  m_uy_fn : ℚ → ℚ → ℚ → ℚ
  m_uz_fn : ℚ → ℚ → ℚ → ℚ

/-- Constructor `InjectorMomentumParser(a_ux_parser, a_uy_parser, a_uz_parser)`. -/
def InjectorMomentumParser.ctor (E : External) (a_ux a_uy a_uz : E.WarpXParser) :
    InjectorMomentumParser :=
  ⟨E.GpuParser a_ux, E.GpuParser a_uy, E.GpuParser a_uz⟩

/-- `InjectorMomentumParser::getMomentum`. -/
def InjectorMomentumParser.getMomentum (self : InjectorMomentumParser) (x y z : ℚ) : XDim3 :=
  ⟨self.m_ux_fn x y z, self.m_uy_fn x y z, self.m_uz_fn x y z⟩

/-- `InjectorMomentumParser::getBulkMomentum`. -/
def InjectorMomentumParser.getBulkMomentum (self : InjectorMomentumParser) (x y z : ℚ) :
    XDim3 :=
  ⟨self.m_ux_fn x y z, self.m_uy_fn x y z, self.m_uz_fn x y z⟩

/-- The union `InjectorMomentum::Object`: it holds exactly one of its seven members. -/
inductive Object (E : External) where
  | constant (c : InjectorMomentumConstant)
  | custom (c : E.InjectorMomentumCustom)
  | gaussian (c : InjectorMomentumGaussian)
  | boltzmann (c : InjectorMomentumBoltzmann)
  | juttner (c : InjectorMomentumJuttner)
  | radial_expansion (c : InjectorMomentumRadialExpansion)
  | parser (c : InjectorMomentumParser)

/-- Value of the enumerator `Type::constant` of `enum struct Type`. -/
def TypeTag.constant : Int := 0
/-- Value of the enumerator `Type::custom`. -/
def TypeTag.custom : Int := 1
/-- Value of the enumerator `Type::gaussian`. -/
def TypeTag.gaussian : Int := 2
/-- Value of the enumerator `Type::boltzmann`. -/
def TypeTag.boltzmann : Int := 3
/-- Value of the enumerator `Type::juttner`. -/
def TypeTag.juttner : Int := 4
/-- Value of the enumerator `Type::radial_expansion`. -/
def TypeTag.radial_expansion : Int := 5
/-- Value of the enumerator `Type::parser`. -/
def TypeTag.parser : Int := 6

/-- Struct `InjectorMomentum`: the tag `type`, an `int`-backed scoped enumeration that can
hold any integer, and the union `object`. -/
structure InjectorMomentum (E : External) where
  type : Int
  object : Object E

/-- How a call of the dispatching `getMomentum` / `getBulkMomentum` ends. -/
inductive Outcome (α : Type) where
  | returned (v : α)
  | abort_unknown_type
  | inactive_member

/-- Constructor `InjectorMomentum(InjectorMomentumConstant*, a_ux, a_uy, a_uz)`. -/
def InjectorMomentum.constant_ctor (E : External) (a_ux a_uy a_uz : ℚ) : InjectorMomentum E :=
  ⟨TypeTag.constant, Object.constant ⟨a_ux, a_uy, a_uz⟩⟩

/-- Constructor `InjectorMomentum(InjectorMomentumParser*, a_ux_parser, a_uy_parser,
a_uz_parser)`. -/
def InjectorMomentum.parser_ctor (E : External) (a_ux a_uy a_uz : E.WarpXParser) :
    InjectorMomentum E :=
  ⟨TypeTag.parser, Object.parser (InjectorMomentumParser.ctor E a_ux a_uy a_uz)⟩

/-- Constructor `InjectorMomentum(InjectorMomentumGaussian*, …)`. -/
def InjectorMomentum.gaussian_ctor (E : External)
    (a_ux_m a_uy_m a_uz_m a_ux_th a_uy_th a_uz_th : ℚ) : InjectorMomentum E :=
  ⟨TypeTag.gaussian, Object.gaussian ⟨a_ux_m, a_uy_m, a_uz_m, a_ux_th, a_uy_th, a_uz_th⟩⟩

/-- Constructor `InjectorMomentum(InjectorMomentumBoltzmann*, theta, beta, dir)`. -/
def InjectorMomentum.boltzmann_ctor (E : External) (theta beta : ℚ) (dir : Int) :
    InjectorMomentum E :=
  ⟨TypeTag.boltzmann, Object.boltzmann (InjectorMomentumBoltzmann.ctor E theta beta dir)⟩

/-- Constructor `InjectorMomentum(InjectorMomentumJuttner*, theta, beta, dir)`. -/
def InjectorMomentum.juttner_ctor (E : External) (theta beta : ℚ) (dir : Int) :
    InjectorMomentum E :=
  ⟨TypeTag.juttner, Object.juttner (InjectorMomentumJuttner.ctor theta beta dir)⟩

/-- Constructor `InjectorMomentum(InjectorMomentumCustom*, a_species_name)`. -/
def InjectorMomentum.custom_ctor (E : External) (a_species_name : String) :
    InjectorMomentum E :=
  ⟨TypeTag.custom, Object.custom (E.custom_ctor a_species_name)⟩

/-- Constructor `InjectorMomentum(InjectorMomentumRadialExpansion*, u_over_r)`. -/
def InjectorMomentum.radial_expansion_ctor (E : External) (u_over_r : ℚ) :
    InjectorMomentum E :=
  ⟨TypeTag.radial_expansion, Object.radial_expansion ⟨u_over_r⟩⟩

/-- `InjectorMomentum::getMomentum`: the `switch` on the tag, cases in source order; each
case reads the union member it names, which is only meaningful when that member is the
one stored; the `default` case calls `amrex::Abort`. -/
def InjectorMomentum.getMomentum (E : External) (self : InjectorMomentum E) (x y z : ℚ)
    (s : E.RandState) : Outcome (XDim3 × E.RandState) :=
  if self.type = TypeTag.parser then
    match self.object with
    | Object.parser c => Outcome.returned (c.getMomentum x y z, s)
    | _ => Outcome.inactive_member
  else if self.type = TypeTag.gaussian then
    match self.object with
    | Object.gaussian c => Outcome.returned (c.getMomentum E x y z s)
    | _ => Outcome.inactive_member
  else if self.type = TypeTag.boltzmann then
    match self.object with
    | Object.boltzmann c => Outcome.returned (E.boltzmann_getMomentum c x y z s)
    | _ => Outcome.inactive_member
  else if self.type = TypeTag.juttner then
    match self.object with
    | Object.juttner c => Outcome.returned (E.juttner_getMomentum c x y z s)
    | _ => Outcome.inactive_member
  else if self.type = TypeTag.constant then
    match self.object with
    | Object.constant c => Outcome.returned (c.getMomentum x y z, s)
    | _ => Outcome.inactive_member
  else if self.type = TypeTag.radial_expansion then
    match self.object with
    | Object.radial_expansion c => Outcome.returned (c.getMomentum x y z, s)
    | _ => Outcome.inactive_member
  else if self.type = TypeTag.custom then
    match self.object with
    | Object.custom c => Outcome.returned (E.custom_getMomentum c x y z s)
    | _ => Outcome.inactive_member
  else Outcome.abort_unknown_type

/-- `InjectorMomentum::getBulkMomentum`: the same `switch`, calling `getBulkMomentum` of the
member. -/
def InjectorMomentum.getBulkMomentum (E : External) (self : InjectorMomentum E) (x y z : ℚ)
    (s : E.RandState) : Outcome (XDim3 × E.RandState) :=
  if self.type = TypeTag.parser then
    match self.object with
    | Object.parser c => Outcome.returned (c.getBulkMomentum x y z, s)
    | _ => Outcome.inactive_member
  else if self.type = TypeTag.gaussian then
    match self.object with
    | Object.gaussian c => Outcome.returned (c.getBulkMomentum x y z, s)
    | _ => Outcome.inactive_member
  else if self.type = TypeTag.boltzmann then
    match self.object with
    | Object.boltzmann c => Outcome.returned (E.boltzmann_getBulkMomentum c x y z s)
    | _ => Outcome.inactive_member
  else if self.type = TypeTag.juttner then
    match self.object with
    | Object.juttner c => Outcome.returned (E.juttner_getBulkMomentum c x y z s)
    | _ => Outcome.inactive_member
  else if self.type = TypeTag.constant then
    match self.object with
    | Object.constant c => Outcome.returned (c.getBulkMomentum x y z, s)
    | _ => Outcome.inactive_member
  else if self.type = TypeTag.radial_expansion then
    match self.object with
    | Object.radial_expansion c => Outcome.returned (c.getBulkMomentum x y z, s)
    | _ => Outcome.inactive_member
  else if self.type = TypeTag.custom then
    match self.object with
    | Object.custom c => Outcome.returned (E.custom_getBulkMomentum c x y z s)
    | _ => Outcome.inactive_member
  else Outcome.abort_unknown_type

/-! ## Spectral field indices (`FieldSolver/SpectralSolver/SpectralFieldData.H`) -/

/-- Values of the enumerators of a C++ `enum`: an enumerator with an initialiser takes it,
one without takes the value of the previous enumerator plus one (`prev` is the value
before the first, `-1`). -/
def enum_values {α : Type} (prev : Int) : List (α × Option Int) → List (α × Int)
  | [] => []
  | (a, some v) :: rest => (a, v) :: enum_values v rest
  | (a, none) :: rest => (a, prev + 1) :: enum_values (prev + 1) rest

/-- Enumerator names of `SpectralFieldIndex`. -/
inductive SpectralFieldName where
  | Ex | Ey | Ez | Bx | By | Bz | Jx | Jy | Jz | rho_old | rho_new | n_fields | divE
  deriving DecidableEq

/-- The declaration
`enum { Ex=0, Ey, Ez, Bx, By, Bz, Jx, Jy, Jz, rho_old, rho_new, n_fields, divE=3 }`. -/
def SpectralFieldIndex_decl : List (SpectralFieldName × Option Int) :=
  [(.Ex, some 0), (.Ey, none), (.Ez, none), (.Bx, none), (.By, none), (.Bz, none),
   (.Jx, none), (.Jy, none), (.Jz, none), (.rho_old, none), (.rho_new, none),
   (.n_fields, none), (.divE, some 3)]

/-- Value `SpectralFieldIndex::f` of the enumerator `f`. -/
def SpectralFieldIndex (f : SpectralFieldName) : Int :=
  ((enum_values (-1) SpectralFieldIndex_decl).lookup f).getD 0

/-! ## Load balancing (`WarpX.H`) -/

/-- Default member initialiser `load_balance_efficiency_ratio_threshold = 1.1`. -/
def load_balance_efficiency_ratio_threshold : ℚ := 11/10

/-- Modelled from the spec: the body of `WarpX::LoadBalance`, which `WarpX.H` only declares.
The new mapping is adopted exactly when the ratio of the candidate efficiency to the
current efficiency is larger than the threshold. -/
def LoadBalance_adopts (threshold current candidate : ℚ) : Bool :=
  decide (threshold < candidate / current)

/-! ## Divergence of B (`FieldSolver/WarpX_FDTD.H`) -/

/-- Which of the macros `WARPX_DIM_3D`, `WARPX_DIM_XZ`, `WARPX_DIM_RZ` the build defines. -/
inductive Geometry where
  | DIM_3D | DIM_XZ | DIM_RZ

/-- An `amrex::Array4<Real>`: values addressed by `(i, j, k, n)`; the three-index access
`a(i,j,k)` is component `n = 0`. -/
abbrev Array4 := Int → Int → Int → Int → ℚ

/-- Assignment `a(i,j,k,n) = v`. -/
def Array4.set (a : Array4) (i j k n : Int) (v : ℚ) : Array4 :=
  fun i' j' k' n' => if i' = i ∧ j' = j ∧ k' = k ∧ n' = n then v else a i' j' k' n'

/-- The divisor `rmin*dxinv + i + 0.5` of the two radial factors of the RZ branch. -/
def rz_denominator (rmin dxinv : ℚ) (i : Int) : ℚ := rmin * dxinv + i + 1/2

/-- `warpx_computedivb(i, j, k, dcomp, divB, Bx, By, Bz, dxinv, dyinv, dzinv, rmin)`: the
array `divB` after the call, for each of the three geometries (`rmin` is a parameter only
in RZ and is ignored otherwise). -/
def warpx_computedivb (g : Geometry) (i j k dcomp : Int) (divB Bx By Bz : Array4)
    (dxinv dyinv dzinv rmin : ℚ) : Array4 :=
  match g with
  | .DIM_3D =>
    divB.set i j k dcomp
      ((Bx (i+1) j k 0 - Bx i j k 0) * dxinv
        + (By i (j+1) k 0 - By i j k 0) * dyinv
        + (Bz i j (k+1) 0 - Bz i j k 0) * dzinv)
  | .DIM_XZ =>
    divB.set i j 0 dcomp
      ((Bx (i+1) j 0 0 - Bx i j 0 0) * dxinv
        + (Bz i (j+1) 0 0 - Bz i j 0 0) * dzinv)
  | .DIM_RZ =>
    let ru : ℚ := 1 + (1/2) / rz_denominator rmin dxinv i
    let rd : ℚ := 1 - (1/2) / rz_denominator rmin dxinv i
    divB.set i j 0 dcomp
      ((ru * Bx (i+1) j 0 0 - rd * Bx i j 0 0) * dxinv
        + (Bz i (j+1) 0 0 - Bz i j 0 0) * dzinv)

/-! ## Per-level step and time accessors (`WarpX.H`) -/

/-- Read `v[i]` of an `amrex::Vector` with an `int` index: `none` stands for an index
outside `0, …, size - 1`, for which the access is undefined in C++. -/
def Vector_get {α : Type} (v : List α) (i : Int) : Option α :=
  if 0 ≤ i then v[i.toNat]? else none

/-- Assignment `v[i] = a` to an `amrex::Vector` with an `int` index: `none` stands for an
index outside `0, …, size - 1`. -/
def Vector_set {α : Type} (v : List α) (i : Int) (a : α) : Option (List α) :=
  if 0 ≤ i ∧ i.toNat < v.length then some (v.set i.toNat a) else none

/-- The per-level data members of class `WarpX` that the accessors read and write. -/
structure WarpXState where
  istep : List Int
  nsubsteps : List Int
  t_new : List ℚ
  t_old : List ℚ
  dt : List ℚ

/-- `int getnsubsteps (int lev) const {return nsubsteps[lev];}` -/
def WarpXState.getnsubsteps (w : WarpXState) (lev : Int) : Option Int :=
  Vector_get w.nsubsteps lev

/-- `int getistep (int lev) const {return istep[lev];}` -/
def WarpXState.getistep (w : WarpXState) (lev : Int) : Option Int :=
  Vector_get w.istep lev

/-- `void setistep (int lev, int ii) {istep[lev] = ii;}` -/
def WarpXState.setistep (w : WarpXState) (lev : Int) (ii : Int) : Option WarpXState :=
  (Vector_set w.istep lev ii).map (fun v => { w with istep := v })

/-- `amrex::Real gett_old (int lev) const {return t_old[lev];}` -/
def WarpXState.gett_old (w : WarpXState) (lev : Int) : Option ℚ :=
  Vector_get w.t_old lev

/-- `amrex::Real gett_new (int lev) const {return t_new[lev];}` -/
def WarpXState.gett_new (w : WarpXState) (lev : Int) : Option ℚ :=
  Vector_get w.t_new lev

/-- `void sett_new (int lev, amrex::Real time) {t_new[lev] = time;}` -/
def WarpXState.sett_new (w : WarpXState) (lev : Int) (time : ℚ) : Option WarpXState :=
  (Vector_set w.t_new lev time).map (fun v => { w with t_new := v })

/-- `amrex::Real getdt (int lev) const {return dt[lev];}` -/
def WarpXState.getdt (w : WarpXState) (lev : Int) : Option ℚ :=
  Vector_get w.dt lev

/-! ## Order 0 with the rounded sum -/

/-- Body of `compute_shape_factor<0>(sx, xmid)` with the rounding of the sum made explicit:
`fl` is the rounding to `amrex::Real` that the addition `xmid+0.5_rt` performs. With `fl` the
identity this is the order-0 case of `compute_shape_factor_body`. -/
def compute_shape_factor_0_rounded (fl : ℚ → ℚ) (xmid : ℚ) : Run :=
  let j := static_cast_int (fl (xmid + 1/2))
  ⟨[(0, 1)], j⟩

/-- Rounding to the nearest multiple of `2^-53`, a tie going up. The multiples of `2^-53` are
the binary64 numbers of `[1/2, 1]`, and at the tie `1 - 2^-54` round-to-nearest-even also
gives `1`, the neighbour with the even significand. -/
def round_binary64_unit (x : ℚ) : ℚ := (round (x * 2 ^ 53) : ℚ) / 2 ^ 53

/-! ## Facts about the conversion to `int` -/

theorem static_cast_int_of_nonneg {x : ℚ} (hx : 0 ≤ x) : static_cast_int x = ⌊x⌋ := by
  simp [static_cast_int, hx]

theorem static_cast_int_le {x : ℚ} (hx : 0 ≤ x) : (static_cast_int x : ℚ) ≤ x := by
  rw [static_cast_int_of_nonneg hx]; exact Int.floor_le x

theorem lt_static_cast_int_add_one {x : ℚ} (hx : 0 ≤ x) : x < (static_cast_int x : ℚ) + 1 := by
  rw [static_cast_int_of_nonneg hx]; exact Int.lt_floor_add_one x

/-! ## Sum and sign of the weights -/

/-- C1: for every order `n ≤ 3` and every coordinate `xmid`, the call
`compute_shape_factor<n>(sx, xmid)` stores to exactly the slots `0, …, n`, in that order,
and the `n + 1` weights it leaves in `sx[0..n]` add up to exactly `1`. -/
theorem compute_shape_factor_sum_one (n : Nat) (hn : n ≤ 3) (sx : Buf) (xmid : ℚ) :
    (compute_shape_factor_body n xmid).stores.map Prod.fst
        = (List.range (n + 1)).map Int.ofNat
      ∧ ∑ k in Finset.range (n + 1), (compute_shape_factor n sx xmid).1 (k : Int) = 1 := by
  interval_cases n
  · simp [compute_shape_factor, compute_shape_factor_body, exec, List.range_succ]
  · refine ⟨by simp [compute_shape_factor_body, List.range_succ], ?_⟩
    simp [compute_shape_factor, compute_shape_factor_body, exec, Finset.sum_range_succ,
      Function.update]
  · refine ⟨by simp [compute_shape_factor_body, List.range_succ], ?_⟩
    simp [compute_shape_factor, compute_shape_factor_body, exec, Finset.sum_range_succ,
      Function.update]
    ring
  · refine ⟨by simp [compute_shape_factor_body, List.range_succ], ?_⟩
    simp [compute_shape_factor, compute_shape_factor_body, exec, Finset.sum_range_succ,
      Function.update]
    ring

/-- Witness of C1 at order 3 and `xmid = 3/10`, on the zero buffer. -/
theorem compute_shape_factor_sum_one_witness :
    (compute_shape_factor_body 3 (3/10)).stores.map Prod.fst
        = (List.range (3 + 1)).map Int.ofNat
      ∧ ∑ k in Finset.range (3 + 1), (compute_shape_factor 3 zeroBuf (3/10)).1 (k : Int) = 1 :=
  compute_shape_factor_sum_one 3 (by decide) zeroBuf (3/10)

/-- C2: for every order `n ≤ 3` and every coordinate `xmid ≥ 0`, each of the `n + 1`
weights that `compute_shape_factor<n>(sx, xmid)` leaves in `sx[0..n]` is non-negative. -/
theorem compute_shape_factor_nonneg (n : Nat) (hn : n ≤ 3) (sx : Buf) (xmid : ℚ)
    (hx : 0 ≤ xmid) (k : Nat) (hk : k ≤ n) :
    0 ≤ (compute_shape_factor n sx xmid).1 (k : Int) := by
  have hx2 : (0 : ℚ) ≤ xmid + 1/2 := by linarith
  have a1 := static_cast_int_le hx
  have a2 := lt_static_cast_int_add_one hx
  have b1 := static_cast_int_le hx2
  have b2 := lt_static_cast_int_add_one hx2
  interval_cases n
  · interval_cases k
    simp [compute_shape_factor, compute_shape_factor_body, exec]
  · interval_cases k <;>
      simp [compute_shape_factor, compute_shape_factor_body, exec, Function.update] <;>
      linarith
  · interval_cases k <;>
      simp [compute_shape_factor, compute_shape_factor_body, exec, Function.update] <;>
      nlinarith
  · interval_cases k <;>
      simp [compute_shape_factor, compute_shape_factor_body, exec, Function.update]
    · have h : (0 : ℚ) ≤ 1 - (xmid - static_cast_int xmid) := by linarith
      positivity
    · nlinarith [mul_nonneg (sub_nonneg.2 a1) (sub_nonneg.2 a1)]
    · nlinarith [mul_nonneg (sub_nonneg.2 a1) (sub_nonneg.2 a1)]
    · have h : (0 : ℚ) ≤ xmid - static_cast_int xmid := by linarith
      positivity

/-- Witness of C2 at order 2, `xmid = 3/10`, slot 1. -/
theorem compute_shape_factor_nonneg_witness :
    0 ≤ (compute_shape_factor 2 zeroBuf (3/10)).1 ((1 : Nat) : Int) :=
  compute_shape_factor_nonneg 2 (by decide) zeroBuf (3/10) (by norm_num) 1 (by decide)

/-! ## The weights are B-spline values -/

theorem B1_neg {x : ℚ} (h0 : 0 ≤ x) (h1 : x < 1) : B1 (-x) = 1 - x := by
  unfold B1
  rw [abs_neg, abs_of_nonneg h0, max_eq_right (by linarith)]

theorem B1_one_sub {x : ℚ} (h0 : 0 ≤ x) (h1 : x < 1) : B1 (1 - x) = x := by
  unfold B1
  rw [abs_of_nonneg (by linarith), max_eq_right (by linarith)]
  ring

theorem B2_left {x : ℚ} (h0 : -(1/2) ≤ x) (h1 : x < 1/2) :
    B2 (-1 - x) = 1/2 * (1/2 - x) * (1/2 - x) := by
  have ha : |(-1 - x)| = 1 + x := by
    rw [abs_of_nonpos (by linarith)]; ring
  unfold B2
  rw [ha]
  split_ifs with c1 c2
  · have hx : x = -(1/2) := by linarith
    subst hx; norm_num
  · ring
  · exfalso; linarith

theorem B2_mid {x : ℚ} (h0 : -(1/2) ≤ x) (h1 : x < 1/2) : B2 (-x) = 3/4 - x * x := by
  unfold B2
  rw [if_pos (by rw [abs_neg, abs_le]; constructor <;> linarith)]
  ring

theorem B2_right {x : ℚ} (h0 : -(1/2) ≤ x) (h1 : x < 1/2) :
    B2 (1 - x) = 1/2 * (1/2 + x) * (1/2 + x) := by
  have ha : |(1 - x)| = 1 - x := abs_of_nonneg (by linarith)
  unfold B2
  rw [ha]
  split_ifs with c1 c2
  · exfalso; linarith
  · ring
  · exfalso; linarith

theorem B3_far_left {x : ℚ} (h0 : 0 ≤ x) (h1 : x < 1) :
    B3 (-1 - x) = 1/6 * (1 - x) * (1 - x) * (1 - x) := by
  have ha : |(-1 - x)| = 1 + x := by
    rw [abs_of_nonpos (by linarith)]; ring
  unfold B3
  rw [ha]
  split_ifs with c1 c2
  · have hx : x = 0 := by linarith
    subst hx; norm_num
  · ring
  · exfalso; linarith

theorem B3_left {x : ℚ} (h0 : 0 ≤ x) (h1 : x < 1) :
    B3 (-x) = 2/3 - x * x * (1 - x / 2) := by
  unfold B3
  rw [abs_neg, abs_of_nonneg h0, if_pos (by linarith)]
  ring

theorem B3_right {x : ℚ} (h0 : 0 ≤ x) (h1 : x < 1) :
    B3 (1 - x) = 2/3 - (1 - x) * (1 - x) * (1 - 1/2 * (1 - x)) := by
  unfold B3
  rw [abs_of_nonneg (by linarith), if_pos (by linarith)]
  ring

theorem B3_far_right {x : ℚ} (h0 : 0 ≤ x) (h1 : x < 1) :
    B3 (2 - x) = 1/6 * x * x * x := by
  unfold B3
  rw [abs_of_nonneg (by linarith), if_neg (by linarith), if_pos (by linarith)]
  ring

/-- C3: for every order `n ∈ {1,2,3}`, every coordinate `xmid ≥ 0` and every `k ≤ n`,
the weight that `compute_shape_factor<n>` leaves in `sx[k]` is the centred cardinal
B-spline of order `n` at `d = (L + k) - xmid`, where `L` is the returned leftmost index. -/
theorem compute_shape_factor_eq_Bspline (n : Nat) (h1 : 1 ≤ n) (h3 : n ≤ 3) (sx : Buf)
    (xmid : ℚ) (hx : 0 ≤ xmid) (k : Nat) (hk : k ≤ n) :
    (compute_shape_factor n sx xmid).1 (k : Int)
      = Bspline n ((((compute_shape_factor n sx xmid).2 + (k : Int) : Int) : ℚ) - xmid) := by
  have hx2 : (0 : ℚ) ≤ xmid + 1/2 := by linarith
  have a1 := static_cast_int_le hx
  have a2 := lt_static_cast_int_add_one hx
  have b1 := static_cast_int_le hx2
  have b2 := lt_static_cast_int_add_one hx2
  interval_cases n
  · have p0 : (0 : ℚ) ≤ xmid - static_cast_int xmid := by linarith
    have p1 : xmid - static_cast_int xmid < 1 := by linarith
    interval_cases k <;>
      simp [compute_shape_factor, compute_shape_factor_body, exec, Function.update, Bspline]
    · convert (B1_neg p0 p1).symm using 2 <;> ring_nf
    · convert (B1_one_sub p0 p1).symm using 2 <;> ring_nf
  · have p0 : -(1/2 : ℚ) ≤ xmid - static_cast_int (xmid + 1/2) := by linarith
    have p1 : xmid - static_cast_int (xmid + 1/2) < 1/2 := by linarith
    interval_cases k <;>
      simp [compute_shape_factor, compute_shape_factor_body, exec, Function.update, Bspline]
    · convert (B2_left p0 p1).symm using 2 <;> ring_nf
    · convert (B2_mid p0 p1).symm using 2 <;> ring_nf
    · convert (B2_right p0 p1).symm using 2 <;> ring_nf
  · have p0 : (0 : ℚ) ≤ xmid - static_cast_int xmid := by linarith
    have p1 : xmid - static_cast_int xmid < 1 := by linarith
    interval_cases k <;>
      simp [compute_shape_factor, compute_shape_factor_body, exec, Function.update, Bspline]
    · convert (B3_far_left p0 p1).symm using 2 <;> ring_nf
    · convert (B3_left p0 p1).symm using 2 <;> ring_nf
    · convert (B3_right p0 p1).symm using 2 <;> ring_nf
    · convert (B3_far_right p0 p1).symm using 2 <;> ring_nf

/-- Witness of C3 at order 2, `xmid = 3/10`, slot 0. -/
theorem compute_shape_factor_eq_Bspline_witness :
    (compute_shape_factor 2 zeroBuf (3/10)).1 ((0 : Nat) : Int)
      = Bspline 2 ((((compute_shape_factor 2 zeroBuf (3/10)).2 + ((0 : Nat) : Int) : Int) : ℚ)
          - 3/10) :=
  compute_shape_factor_eq_Bspline 2 (by decide) (by decide) zeroBuf (3/10) (by norm_num) 0
    (by decide)

/-! ## Order 0 and the leftmost cell -/

/-- C4, as stated, fails, in two ways. At `xmid = -7/10` the order-0 call returns the index
`0`, which is further than `1/2` from `xmid` (the nearest grid point is `-1`). And at the
non-negative binary64 number `xmid = 1/2 - 2^-54` the sum `xmid + 0.5` rounds to `1`, so the
call returns `1`, again further than `1/2` from `xmid`. -/
theorem compute_shape_factor_zero_not_nearest :
    ((compute_shape_factor 0 zeroBuf (-7/10)).2 = 0
      ∧ ¬ |(-7/10 : ℚ) - ((compute_shape_factor 0 zeroBuf (-7/10)).2 : ℚ)| ≤ 1/2)
    ∧ ((0 : ℚ) ≤ 1/2 - 1/2^54
      ∧ round_binary64_unit (1/2 - 1/2^54 + 1/2) = 1
      ∧ (compute_shape_factor_0_rounded round_binary64_unit (1/2 - 1/2^54)).ret = 1
      ∧ ¬ |(1/2 - 1/2^54 : ℚ)
            - ((compute_shape_factor_0_rounded round_binary64_unit (1/2 - 1/2^54)).ret : ℚ)|
          ≤ 1/2) := by
  have h : (compute_shape_factor 0 zeroBuf (-7/10)).2 = 0 := by
    norm_num [compute_shape_factor, compute_shape_factor_body, static_cast_int]
  have hr : round_binary64_unit (1/2 - 1/2^54 + 1/2) = 1 := by
    have e : ((1/2 - 1/2^54 + 1/2 : ℚ) * 2 ^ 53) = ((2 ^ 53 - 1 : Int) : ℚ) + 1/2 := by
      norm_num
    unfold round_binary64_unit
    rw [e, round_eq, Int.floor_eq_iff.2 (⟨by norm_num, by norm_num⟩ :
      (((2 ^ 53 : Int) : ℚ) ≤ ((2 ^ 53 - 1 : Int) : ℚ) + 1/2 + 1/2
        ∧ ((2 ^ 53 - 1 : Int) : ℚ) + 1/2 + 1/2 < ((2 ^ 53 : Int) : ℚ) + 1))]
    norm_num
  have hj : (compute_shape_factor_0_rounded round_binary64_unit (1/2 - 1/2^54)).ret = 1 := by
    simp only [compute_shape_factor_0_rounded, hr]
    norm_num [static_cast_int]
  refine ⟨⟨h, ?_⟩, by norm_num, hr, hj, ?_⟩
  · rw [h]; norm_num [abs_le]
  · rw [hj]; norm_num [abs_le]

/-- C4, amended: for every coordinate `xmid` and every rounding `fl` of the sum `xmid + 0.5`,
`compute_shape_factor<0>(sx, xmid)` performs the single store `sx[0] = 1` and returns
`j = static_cast<int>(fl(xmid + 0.5))`. For `xmid ≥ -1/2`, in particular for `xmid ≥ 0`,
`|xmid - j| ≤ 1/2 + |fl(xmid + 0.5) - (xmid + 0.5)|`: `j` is a nearest grid point up to the
rounding error of the sum. When the sum is exact, `|xmid - j| ≤ 1/2` holds exactly when
`xmid ≥ -1/2` or `xmid + 1/2` is an integer. With `fl` the identity the body is the order-0
case of `compute_shape_factor_body`. -/
theorem compute_shape_factor_zero_nearest (fl : ℚ → ℚ) (sx : Buf) (xmid : ℚ) :
    (compute_shape_factor_0_rounded fl xmid).stores = [(0, 1)]
      ∧ exec sx (compute_shape_factor_0_rounded fl xmid).stores 0 = 1
      ∧ compute_shape_factor_0_rounded (fun y => y) xmid = compute_shape_factor_body 0 xmid
      ∧ (-(1/2) ≤ xmid →
          |xmid - ((compute_shape_factor_0_rounded fl xmid).ret : ℚ)|
            ≤ 1/2 + |fl (xmid + 1/2) - (xmid + 1/2)|)
      ∧ (fl (xmid + 1/2) = xmid + 1/2 →
          (|xmid - ((compute_shape_factor_0_rounded fl xmid).ret : ℚ)| ≤ 1/2
            ↔ (-(1/2) ≤ xmid ∨ ∃ m : Int, xmid + 1/2 = (m : ℚ)))) := by
  have key : |xmid - (static_cast_int (xmid + 1/2) : ℚ)| ≤ 1/2
      ↔ (-(1/2) ≤ xmid ∨ ∃ m : Int, xmid + 1/2 = (m : ℚ)) := by
    by_cases h : (0 : ℚ) ≤ xmid + 1/2
    · have b1 := static_cast_int_le h
      have b2 := lt_static_cast_int_add_one h
      constructor
      · intro _; left; linarith
      · intro _; rw [abs_le]; constructor <;> linarith
    · have hj : static_cast_int (xmid + 1/2) = ⌈xmid + 1/2⌉ := by
        unfold static_cast_int; rw [if_neg h]
      rw [hj]
      have c1 := Int.le_ceil (xmid + 1/2)
      have c2 := Int.ceil_lt_add_one (xmid + 1/2)
      constructor
      · intro hh
        right
        refine ⟨⌈xmid + 1/2⌉, ?_⟩
        have := (abs_le.1 hh).1
        linarith
      · rintro (hh | ⟨m, hm⟩)
        · exfalso; apply h; linarith
        · rw [hm, Int.ceil_intCast, abs_le]
          constructor <;> linarith
  refine ⟨rfl, ?_, rfl, ?_, ?_⟩
  · simp [compute_shape_factor_0_rounded, exec]
  · intro hx
    show |xmid - (static_cast_int (fl (xmid + 1/2)) : ℚ)| ≤ _
    have hy : (0 : ℚ) ≤ xmid + 1/2 := by linarith
    have e1 := le_abs_self (fl (xmid + 1/2) - (xmid + 1/2))
    have e2 := neg_abs_le (fl (xmid + 1/2) - (xmid + 1/2))
    rw [abs_le]
    by_cases hs : (0 : ℚ) ≤ fl (xmid + 1/2)
    · have b1 := static_cast_int_le hs
      have b2 := lt_static_cast_int_add_one hs
      constructor <;> linarith
    · have hj : static_cast_int (fl (xmid + 1/2)) = ⌈fl (xmid + 1/2)⌉ := by
        unfold static_cast_int; rw [if_neg hs]
      rw [hj]
      have c1 := Int.le_ceil (fl (xmid + 1/2))
      have c3 : ⌈fl (xmid + 1/2)⌉ ≤ 0 := Int.ceil_le.2 (by push_cast; linarith)
      have c4 : ((⌈fl (xmid + 1/2)⌉ : Int) : ℚ) ≤ 0 := by exact_mod_cast c3
      constructor <;> linarith
  · intro hfl
    show |xmid - (static_cast_int (fl (xmid + 1/2)) : ℚ)| ≤ 1/2 ↔ _
    rw [hfl]
    exact key

/-- Witness of the amended C4: with the exact sum at `xmid = 3/10` the returned index is
within `1/2`; with the sum rounded to binary64 at `xmid = 1/2 - 2^-54` it is within `1/2`
plus the rounding error. -/
theorem compute_shape_factor_zero_nearest_witness :
    |(3/10 : ℚ) - ((compute_shape_factor_0_rounded (fun y => y) (3/10)).ret : ℚ)| ≤ 1/2
      ∧ |(1/2 - 1/2^54 : ℚ)
            - ((compute_shape_factor_0_rounded round_binary64_unit (1/2 - 1/2^54)).ret : ℚ)|
          ≤ 1/2 + |round_binary64_unit (1/2 - 1/2^54 + 1/2) - (1/2 - 1/2^54 + 1/2)| :=
  ⟨((compute_shape_factor_zero_nearest (fun y => y) zeroBuf (3/10)).2.2.2.2 rfl).2
      (Or.inl (by norm_num)),
   (compute_shape_factor_zero_nearest round_binary64_unit zeroBuf (1/2 - 1/2^54)).2.2.2.1
      (by norm_num)⟩

/-- C5: for every order `n ≤ 3` and every coordinate `xmid ≥ 0`, no store of
`compute_shape_factor<n>` goes to a slot below `0` and the weight left in `sx[0]`, the
slot of the returned index, is strictly positive. -/
theorem compute_shape_factor_first_weight_pos (n : Nat) (hn : n ≤ 3) (sx : Buf) (xmid : ℚ)
    (hx : 0 ≤ xmid) :
    (∀ s ∈ (compute_shape_factor_body n xmid).stores, 0 ≤ s.1)
      ∧ 0 < (compute_shape_factor n sx xmid).1 0 := by
  have hx2 : (0 : ℚ) ≤ xmid + 1/2 := by linarith
  have a2 := lt_static_cast_int_add_one hx
  have b2 := lt_static_cast_int_add_one hx2
  interval_cases n
  · simp [compute_shape_factor, compute_shape_factor_body, exec]
  · simp [compute_shape_factor, compute_shape_factor_body, exec, Function.update]
    linarith
  · simp [compute_shape_factor, compute_shape_factor_body, exec, Function.update]
    have h : (0 : ℚ) < 2⁻¹ - (xmid - static_cast_int (xmid + 2⁻¹)) := by
      norm_num at b2 ⊢; linarith
    positivity
  · simp [compute_shape_factor, compute_shape_factor_body, exec, Function.update]
    have h : (0 : ℚ) < 1 - (xmid - static_cast_int xmid) := by linarith
    positivity

/-- Witness of C5 at order 3 and `xmid = 3/10`. -/
theorem compute_shape_factor_first_weight_pos_witness :
    (∀ s ∈ (compute_shape_factor_body 3 (3/10)).stores, 0 ≤ s.1)
      ∧ 0 < (compute_shape_factor 3 zeroBuf (3/10)).1 0 :=
  compute_shape_factor_first_weight_pos 3 (by decide) zeroBuf (3/10) (by norm_num)

/-! ## The shifted shape factor -/

/-- C6: for every order `n ∈ {1,2,3}`, every `x_old` and every `i_new` whose distance
`s = L_old - i_new` from the leftmost index `L_old` of `x_old` is `-1`, `0` or `1`: on the
zero buffer, `compute_shifted_shape_factor<n>(sx, x_old, i_new)` stores only to slots of
`0, …, n + 2`, leaves in slot `1 + s + k` the `k`-th weight of `compute_shape_factor<n>`
at `x_old` for `k ≤ n` and `0` in every other slot; slot `m` holds the weight that `x_old`
gives to grid cell `i_new - 1 + m`. -/
theorem compute_shifted_shape_factor_eq_shape (n : Nat) (h1 : 1 ≤ n) (h3 : n ≤ 3)
    (x_old : ℚ) (i_new : Int)
    (hs : -1 ≤ (compute_shape_factor n zeroBuf x_old).2 - i_new
      ∧ (compute_shape_factor n zeroBuf x_old).2 - i_new ≤ 1) :
    (∀ st ∈ (compute_shifted_shape_factor_body n x_old i_new).stores,
        0 ≤ st.1 ∧ st.1 ≤ (n : Int) + 2)
      ∧ (∀ k : Nat, k ≤ n →
          (compute_shifted_shape_factor n zeroBuf x_old i_new).1
              (1 + ((compute_shape_factor n zeroBuf x_old).2 - i_new) + (k : Int))
            = (compute_shape_factor n zeroBuf x_old).1 (k : Int))
      ∧ (∀ m : Int, (m < 1 + ((compute_shape_factor n zeroBuf x_old).2 - i_new)
            ∨ 1 + ((compute_shape_factor n zeroBuf x_old).2 - i_new) + (n : Int) < m) →
          (compute_shifted_shape_factor n zeroBuf x_old i_new).1 m = 0)
      ∧ (∀ m : Int, (compute_shifted_shape_factor n zeroBuf x_old i_new).1 m
            = cell_weight n x_old (i_new - 1 + m)) := by
  interval_cases n <;> simp [compute_shape_factor, compute_shape_factor_body] at hs <;>
    refine ⟨?_, ?_, ?_, ?_⟩
  case «1».refine_1 | «2».refine_1 | «3».refine_1 =>
    simp [compute_shifted_shape_factor_body]
    omega
  case «1».refine_2 | «2».refine_2 | «3».refine_2 =>
    intro k hk
    interval_cases k <;>
      simp [compute_shifted_shape_factor, compute_shifted_shape_factor_body,
        compute_shape_factor, compute_shape_factor_body, exec, Function.update, zeroBuf] <;>
      (try split_ifs) <;> first | rfl | omega
  case «1».refine_3 | «2».refine_3 | «3».refine_3 =>
    intro m hm
    simp [compute_shifted_shape_factor, compute_shifted_shape_factor_body,
      compute_shape_factor, compute_shape_factor_body, exec, Function.update, zeroBuf] at hm ⊢
    split_ifs <;> first | rfl | omega
  case «1».refine_4 | «2».refine_4 | «3».refine_4 =>
    intro m
    simp [compute_shifted_shape_factor, compute_shifted_shape_factor_body, cell_weight,
      compute_shape_factor, compute_shape_factor_body, exec, Function.update, zeroBuf]
    split_ifs <;> first | rfl | omega

/-- Witness of C6 at order 2, `x_old = 3/10`, `i_new = -1` (so `s = 0`). -/
theorem compute_shifted_shape_factor_eq_shape_witness :
    (∀ st ∈ (compute_shifted_shape_factor_body 2 (3/10) (-1)).stores,
        0 ≤ st.1 ∧ st.1 ≤ ((2 : Nat) : Int) + 2)
      ∧ (∀ k : Nat, k ≤ 2 →
          (compute_shifted_shape_factor 2 zeroBuf (3/10) (-1)).1
              (1 + ((compute_shape_factor 2 zeroBuf (3/10)).2 - (-1)) + (k : Int))
            = (compute_shape_factor 2 zeroBuf (3/10)).1 (k : Int))
      ∧ (∀ m : Int, (m < 1 + ((compute_shape_factor 2 zeroBuf (3/10)).2 - (-1))
            ∨ 1 + ((compute_shape_factor 2 zeroBuf (3/10)).2 - (-1)) + ((2 : Nat) : Int) < m) →
          (compute_shifted_shape_factor 2 zeroBuf (3/10) (-1)).1 m = 0)
      ∧ (∀ m : Int, (compute_shifted_shape_factor 2 zeroBuf (3/10) (-1)).1 m
            = cell_weight 2 (3/10) (-1 - 1 + m)) :=
  compute_shifted_shape_factor_eq_shape 2 (by decide) (by decide) (3/10) (-1)
    (by norm_num [compute_shape_factor, compute_shape_factor_body, static_cast_int])

/-- C7: for every order `n ∈ {1,2,3}`, every `x_old` and every `i_new`, the index returned
by `compute_shifted_shape_factor<n>(sx, x_old, i_new)` is the index returned by
`compute_shape_factor<n>(sx', x_old)`, whatever `i_new` and the buffers are. -/
theorem compute_shifted_shape_factor_ret (n : Nat) (h1 : 1 ≤ n) (h3 : n ≤ 3) (sx sx' : Buf)
    (x_old : ℚ) (i_new : Int) :
    (compute_shifted_shape_factor n sx x_old i_new).2
      = (compute_shape_factor n sx' x_old).2 := by
  interval_cases n <;> rfl

/-- Witness of C7 at order 3, `x_old = 5/2`, `i_new = 7`. -/
theorem compute_shifted_shape_factor_ret_witness :
    (compute_shifted_shape_factor 3 zeroBuf (5/2) 7).2
      = (compute_shape_factor 3 zeroBuf (5/2)).2 :=
  compute_shifted_shape_factor_ret 3 (by decide) (by decide) zeroBuf zeroBuf (5/2) 7

/-- Two non-negative coordinates less than one cell apart convert to integers at most
one apart. -/
theorem static_cast_int_sub_le_one {a b : ℚ} (ha : 0 ≤ a) (hb : 0 ≤ b) (hd : |a - b| < 1) :
    -1 ≤ static_cast_int a - static_cast_int b ∧ static_cast_int a - static_cast_int b ≤ 1 := by
  have a1 := static_cast_int_le ha
  have a2 := lt_static_cast_int_add_one ha
  have b1 := static_cast_int_le hb
  have b2 := lt_static_cast_int_add_one hb
  obtain ⟨d1, d2⟩ := abs_lt.1 hd
  have u : (static_cast_int a : ℚ) < (static_cast_int b : ℚ) + 2 := by linarith
  have v : (static_cast_int b : ℚ) < (static_cast_int a : ℚ) + 2 := by linarith
  have u' : static_cast_int a < static_cast_int b + 2 := by exact_mod_cast u
  have v' : static_cast_int b < static_cast_int a + 2 := by exact_mod_cast v
  constructor <;> omega

/-- C8: for every order `n ∈ {1,2,3}` and all `x_old, x_new ≥ 0` with `|x_new - x_old| < 1`,
taking `i_new` to be the leftmost index that `compute_shape_factor<n>` returns for `x_new`,
every slot that `compute_shifted_shape_factor<n>(sx, x_old, i_new)` stores to lies in
`0, …, n + 2`. -/
theorem compute_shifted_shape_factor_in_bounds (n : Nat) (h1 : 1 ≤ n) (h3 : n ≤ 3) (sx : Buf)
    (x_old x_new : ℚ) (ho : 0 ≤ x_old) (hn : 0 ≤ x_new) (hd : |x_new - x_old| < 1) :
    ∀ st ∈ (compute_shifted_shape_factor_body n x_old
        (compute_shape_factor n sx x_new).2).stores,
      0 ≤ st.1 ∧ st.1 ≤ (n : Int) + 2 := by
  have hd' : |x_old - x_new| < 1 := by rw [abs_sub_comm]; exact hd
  have e1 := static_cast_int_sub_le_one ho hn hd'
  have e2 := static_cast_int_sub_le_one (a := x_old + 1/2) (b := x_new + 1/2)
    (by linarith) (by linarith) (by rw [add_sub_add_right_eq_sub]; exact hd')
  simp only [one_div] at e2
  interval_cases n <;>
    simp [compute_shifted_shape_factor_body, compute_shape_factor,
      compute_shape_factor_body] <;>
    omega

/-- Witness of C8 at order 1 with `x_old = 3/10`, `x_new = 9/20`. -/
theorem compute_shifted_shape_factor_in_bounds_witness :
    |(9/20 : ℚ) - 3/10| < 1
      ∧ ∀ st ∈ (compute_shifted_shape_factor_body 1 (3/10)
          (compute_shape_factor 1 zeroBuf (9/20)).2).stores,
        0 ≤ st.1 ∧ st.1 ≤ ((1 : Nat) : Int) + 2 :=
  ⟨by norm_num [abs_lt],
   compute_shifted_shape_factor_in_bounds 1 (by decide) (by decide) zeroBuf (3/10) (9/20)
    (by norm_num) (by norm_num) (by norm_num [abs_lt])⟩


/-- C9, as stated, fails: at order 1 with `x_old = 5/2` and `i_new = 0` the old leftmost cell
is two cells from `i_new`, yet the call returns normally: it returns the index `2` after
storing the weights `1/2`, `1/2` at the slots `3` and `4`, the latter outside the four
slots `0, …, 3` of the buffer. -/
theorem compute_shifted_shape_factor_far_returns :
    1 < |(compute_shape_factor 1 zeroBuf (5/2)).2 - 0|
      ∧ (compute_shifted_shape_factor_body 1 (5/2) 0).stores = [(3, 1/2), (4, 1/2)]
      ∧ (compute_shifted_shape_factor_body 1 (5/2) 0).stores ≠ []
      ∧ (compute_shifted_shape_factor 1 zeroBuf (5/2) 0).2 = 2
      ∧ (compute_shifted_shape_factor 1 zeroBuf (5/2) 0).1 4 = 1/2 := by
  have hj : static_cast_int (5/2) = 2 := by
    norm_num [static_cast_int, Int.floor_eq_iff]
  have hst : (compute_shifted_shape_factor_body 1 (5/2) 0).stores = [(3, 1/2), (4, 1/2)] := by
    simp only [compute_shifted_shape_factor_body, hj]
    norm_num
  refine ⟨?_, hst, ?_, ?_, ?_⟩
  · simp only [compute_shape_factor, compute_shape_factor_body, hj]
    norm_num
  · rw [hst]; exact List.cons_ne_nil _ _
  · simp only [compute_shifted_shape_factor, compute_shifted_shape_factor_body, hj]
  · simp only [compute_shifted_shape_factor, hst, exec]
    norm_num [Function.update]

/-- C9, amended: `compute_shifted_shape_factor<n>` has no failure path. For every order
`n ∈ {1,2,3}`, whenever the old leftmost cell `L_old` differs from `i_new` by more than one
cell, the call still returns `L_old` and stores the `n + 1` weights of
`compute_shape_factor<n>` at the slots `1 + (L_old - i_new) + k`, at least one of which lies
outside `0, …, n + 2`. -/
theorem compute_shifted_shape_factor_far (n : Nat) (h1 : 1 ≤ n) (h3 : n ≤ 3) (x_old : ℚ)
    (i_new : Int) (hs : 1 < |(compute_shape_factor n zeroBuf x_old).2 - i_new|) :
    (compute_shifted_shape_factor_body n x_old i_new).ret
        = (compute_shape_factor n zeroBuf x_old).2
      ∧ (compute_shifted_shape_factor_body n x_old i_new).stores
        = (compute_shape_factor_body n x_old).stores.map
            (fun st => (1 + ((compute_shape_factor n zeroBuf x_old).2 - i_new) + st.1, st.2))
      ∧ ∃ st ∈ (compute_shifted_shape_factor_body n x_old i_new).stores,
          st.1 < 0 ∨ (n : Int) + 2 < st.1 := by
  rw [lt_abs] at hs
  interval_cases n
  · refine ⟨rfl, ?_, ?_⟩
    · simp [compute_shifted_shape_factor_body, compute_shape_factor,
        compute_shape_factor_body]
      omega
    · simp [compute_shifted_shape_factor_body, compute_shape_factor,
        compute_shape_factor_body] at hs ⊢
      omega
  · refine ⟨rfl, ?_, ?_⟩
    · simp [compute_shifted_shape_factor_body, compute_shape_factor,
        compute_shape_factor_body]
      omega
    · simp [compute_shifted_shape_factor_body, compute_shape_factor,
        compute_shape_factor_body] at hs ⊢
      omega
  · refine ⟨rfl, ?_, ?_⟩
    · simp [compute_shifted_shape_factor_body, compute_shape_factor,
        compute_shape_factor_body]
      omega
    · simp [compute_shifted_shape_factor_body, compute_shape_factor,
        compute_shape_factor_body] at hs ⊢
      omega

/-- Witness of the amended C9 at order 1, `x_old = 5/2`, `i_new = 0`. -/
theorem compute_shifted_shape_factor_far_witness :
    (compute_shifted_shape_factor_body 1 (5/2) 0).ret
        = (compute_shape_factor 1 zeroBuf (5/2)).2
      ∧ (compute_shifted_shape_factor_body 1 (5/2) 0).stores
        = (compute_shape_factor_body 1 (5/2)).stores.map
            (fun st => (1 + ((compute_shape_factor 1 zeroBuf (5/2)).2 - 0) + st.1, st.2))
      ∧ ∃ st ∈ (compute_shifted_shape_factor_body 1 (5/2) 0).stores,
          st.1 < 0 ∨ ((1 : Nat) : Int) + 2 < st.1 :=
  compute_shifted_shape_factor_far 1 (by decide) (by decide) (5/2) 0
    (by norm_num [compute_shape_factor, compute_shape_factor_body, static_cast_int,
      Int.floor_eq_iff])

/-! ## Charge conservation of the shifted stencil -/

/-- The current at slot `m` is minus the sum of the differences over the slots below `m`. -/
theorem J_eq_neg_sum (A B : Buf) (m : Nat) :
    J A B m = - ∑ k in Finset.range m, (A (k : Int) - B (k : Int)) := by
  induction m with
  | zero => simp [J]
  | succ m ih => rw [J, ih, Finset.sum_range_succ]; ring

/-- C10: for every order `n ∈ {1,2,3}` and `x_old, x_new ≥ 0` with `|x_new - x_old| < 1`,
with `S_new` the zero buffer after `compute_shape_factor<n>(sx + 1, x_new)`, `i_new` the index
that call returns and `S_old` the zero buffer after
`compute_shifted_shape_factor<n>(sx, x_old, i_new)`: the differences `S_new[m] - S_old[m]`
over the slots `0, …, n + 2` add up to `0`, and the current `J` is `0` at slot `n + 3`. -/
theorem shifted_stencil_charge_conservation (n : Nat) (h1 : 1 ≤ n) (h3 : n ≤ 3)
    (x_old x_new : ℚ) (ho : 0 ≤ x_old) (hn : 0 ≤ x_new) (hd : |x_new - x_old| < 1) :
    ∑ m in Finset.range (n + 3),
        (S_new n x_new (m : Int)
          - S_old n x_old (compute_shape_factor n zeroBuf x_new).2 (m : Int)) = 0
      ∧ J (S_new n x_new) (S_old n x_old (compute_shape_factor n zeroBuf x_new).2) (n + 3)
        = 0 := by
  have hd' : |x_old - x_new| < 1 := by rw [abs_sub_comm]; exact hd
  have e1 := static_cast_int_sub_le_one ho hn hd'
  have e2 := static_cast_int_sub_le_one (a := x_old + 1/2) (b := x_new + 1/2)
    (by linarith) (by linarith) (by rw [add_sub_add_right_eq_sub]; exact hd')
  have key : ∑ m in Finset.range (n + 3),
        (S_new n x_new (m : Int)
          - S_old n x_old (compute_shape_factor n zeroBuf x_new).2 (m : Int)) = 0 := by
    interval_cases n
    · have c : static_cast_int x_old - static_cast_int x_new = -1
          ∨ static_cast_int x_old - static_cast_int x_new = 0
          ∨ static_cast_int x_old - static_cast_int x_new = 1 := by omega
      rcases c with c | c | c <;>
        simp [S_new, S_old, shape_stores_plus_one, compute_shifted_shape_factor,
          compute_shifted_shape_factor_body, compute_shape_factor, compute_shape_factor_body,
          exec, zeroBuf, Function.update, Finset.sum_range_succ, c]
    · simp only [one_div] at e2
      have c : static_cast_int (x_old + 2⁻¹) = static_cast_int (x_new + 2⁻¹) - 1
          ∨ static_cast_int (x_old + 2⁻¹) = static_cast_int (x_new + 2⁻¹)
          ∨ static_cast_int (x_old + 2⁻¹) = static_cast_int (x_new + 2⁻¹) + 1 := by omega
      rcases c with c | c | c <;>
        simp [S_new, S_old, shape_stores_plus_one, compute_shifted_shape_factor,
          compute_shifted_shape_factor_body, compute_shape_factor, compute_shape_factor_body,
          exec, zeroBuf, Function.update, Finset.sum_range_succ, c] <;>
        ring
    · have c : static_cast_int x_old = static_cast_int x_new - 1
          ∨ static_cast_int x_old = static_cast_int x_new
          ∨ static_cast_int x_old = static_cast_int x_new + 1 := by omega
      rcases c with c | c | c <;>
        simp [S_new, S_old, shape_stores_plus_one, compute_shifted_shape_factor,
          compute_shifted_shape_factor_body, compute_shape_factor, compute_shape_factor_body,
          exec, zeroBuf, Function.update, Finset.sum_range_succ, c] <;>
        ring
  exact ⟨key, by rw [J_eq_neg_sum, key, neg_zero]⟩

/-- Witness of C10 at order 2 for the particle moving from `x_old = 3/10` to
`x_new = 9/20`. -/
theorem shifted_stencil_charge_conservation_witness :
    ∑ m in Finset.range (2 + 3),
        (S_new 2 (9/20) (m : Int)
          - S_old 2 (3/10) (compute_shape_factor 2 zeroBuf (9/20)).2 (m : Int)) = 0
      ∧ J (S_new 2 (9/20)) (S_old 2 (3/10) (compute_shape_factor 2 zeroBuf (9/20)).2) (2 + 3)
        = 0 :=
  shifted_stencil_charge_conservation 2 (by decide) (by decide) (3/10) (9/20)
    (by norm_num) (by norm_num) (by norm_num [abs_lt])

/-! ## Momentum injectors -/

/-- C11: for each of the seven constructors of `InjectorMomentum` (constant, custom,
gaussian, boltzmann, juttner, radial_expansion, parser) the stored tag is the enumerator of
the union member that the constructor stores, and `getMomentum` and `getBulkMomentum` return
what that member's `getMomentum` / `getBulkMomentum` returns for the same `(x, y, z)`; in
particular neither call reaches the `default` branch with `amrex::Abort`. -/
theorem InjectorMomentum_dispatch (E : External) (x y z : ℚ) (s : E.RandState) :
    (∀ a_ux a_uy a_uz : ℚ,
        (InjectorMomentum.constant_ctor E a_ux a_uy a_uz).type = TypeTag.constant
        ∧ (InjectorMomentum.constant_ctor E a_ux a_uy a_uz).object
            = Object.constant ⟨a_ux, a_uy, a_uz⟩
        ∧ (InjectorMomentum.constant_ctor E a_ux a_uy a_uz).getMomentum E x y z s
            = Outcome.returned
                ((InjectorMomentumConstant.mk a_ux a_uy a_uz).getMomentum x y z, s)
        ∧ (InjectorMomentum.constant_ctor E a_ux a_uy a_uz).getBulkMomentum E x y z s
            = Outcome.returned
                ((InjectorMomentumConstant.mk a_ux a_uy a_uz).getBulkMomentum x y z, s))
    ∧ (∀ name : String,
        (InjectorMomentum.custom_ctor E name).type = TypeTag.custom
        ∧ (InjectorMomentum.custom_ctor E name).object = Object.custom (E.custom_ctor name)
        ∧ (InjectorMomentum.custom_ctor E name).getMomentum E x y z s
            = Outcome.returned (E.custom_getMomentum (E.custom_ctor name) x y z s)
        ∧ (InjectorMomentum.custom_ctor E name).getBulkMomentum E x y z s
            = Outcome.returned (E.custom_getBulkMomentum (E.custom_ctor name) x y z s))
    ∧ (∀ m1 m2 m3 t1 t2 t3 : ℚ,
        (InjectorMomentum.gaussian_ctor E m1 m2 m3 t1 t2 t3).type = TypeTag.gaussian
        ∧ (InjectorMomentum.gaussian_ctor E m1 m2 m3 t1 t2 t3).object
            = Object.gaussian ⟨m1, m2, m3, t1, t2, t3⟩
        ∧ (InjectorMomentum.gaussian_ctor E m1 m2 m3 t1 t2 t3).getMomentum E x y z s
            = Outcome.returned
                ((InjectorMomentumGaussian.mk m1 m2 m3 t1 t2 t3).getMomentum E x y z s)
        ∧ (InjectorMomentum.gaussian_ctor E m1 m2 m3 t1 t2 t3).getBulkMomentum E x y z s
            = Outcome.returned
                ((InjectorMomentumGaussian.mk m1 m2 m3 t1 t2 t3).getBulkMomentum x y z, s))
    ∧ (∀ (theta beta : ℚ) (dir : Int),
        (InjectorMomentum.boltzmann_ctor E theta beta dir).type = TypeTag.boltzmann
        ∧ (InjectorMomentum.boltzmann_ctor E theta beta dir).object
            = Object.boltzmann (InjectorMomentumBoltzmann.ctor E theta beta dir)
        ∧ (InjectorMomentum.boltzmann_ctor E theta beta dir).getMomentum E x y z s
            = Outcome.returned
                (E.boltzmann_getMomentum (InjectorMomentumBoltzmann.ctor E theta beta dir)
                  x y z s)
        ∧ (InjectorMomentum.boltzmann_ctor E theta beta dir).getBulkMomentum E x y z s
            = Outcome.returned
                (E.boltzmann_getBulkMomentum (InjectorMomentumBoltzmann.ctor E theta beta dir)
                  x y z s))
    ∧ (∀ (theta beta : ℚ) (dir : Int),
        (InjectorMomentum.juttner_ctor E theta beta dir).type = TypeTag.juttner
        ∧ (InjectorMomentum.juttner_ctor E theta beta dir).object
            = Object.juttner (InjectorMomentumJuttner.ctor theta beta dir)
        ∧ (InjectorMomentum.juttner_ctor E theta beta dir).getMomentum E x y z s
            = Outcome.returned
                (E.juttner_getMomentum (InjectorMomentumJuttner.ctor theta beta dir) x y z s)
        ∧ (InjectorMomentum.juttner_ctor E theta beta dir).getBulkMomentum E x y z s
            = Outcome.returned
                (E.juttner_getBulkMomentum (InjectorMomentumJuttner.ctor theta beta dir)
                  x y z s))
    ∧ (∀ u_over_r : ℚ,
        (InjectorMomentum.radial_expansion_ctor E u_over_r).type = TypeTag.radial_expansion
        ∧ (InjectorMomentum.radial_expansion_ctor E u_over_r).object
            = Object.radial_expansion ⟨u_over_r⟩
        ∧ (InjectorMomentum.radial_expansion_ctor E u_over_r).getMomentum E x y z s
            = Outcome.returned
                ((InjectorMomentumRadialExpansion.mk u_over_r).getMomentum x y z, s)
        ∧ (InjectorMomentum.radial_expansion_ctor E u_over_r).getBulkMomentum E x y z s
            = Outcome.returned
                ((InjectorMomentumRadialExpansion.mk u_over_r).getBulkMomentum x y z, s))
    ∧ (∀ a_ux a_uy a_uz : E.WarpXParser,
        (InjectorMomentum.parser_ctor E a_ux a_uy a_uz).type = TypeTag.parser
        ∧ (InjectorMomentum.parser_ctor E a_ux a_uy a_uz).object
            = Object.parser (InjectorMomentumParser.ctor E a_ux a_uy a_uz)
        ∧ (InjectorMomentum.parser_ctor E a_ux a_uy a_uz).getMomentum E x y z s
            = Outcome.returned
                ((InjectorMomentumParser.ctor E a_ux a_uy a_uz).getMomentum x y z, s)
        ∧ (InjectorMomentum.parser_ctor E a_ux a_uy a_uz).getBulkMomentum E x y z s
            = Outcome.returned
                ((InjectorMomentumParser.ctor E a_ux a_uy a_uz).getBulkMomentum x y z, s)) := by
  refine ⟨?_, ?_, ?_, ?_, ?_, ?_, ?_⟩ <;> intros <;>
    refine ⟨rfl, rfl, ?_, ?_⟩ <;>
    simp [InjectorMomentum.getMomentum, InjectorMomentum.getBulkMomentum,
      InjectorMomentum.constant_ctor, InjectorMomentum.custom_ctor,
      InjectorMomentum.gaussian_ctor, InjectorMomentum.boltzmann_ctor,
      InjectorMomentum.juttner_ctor, InjectorMomentum.radial_expansion_ctor,
      InjectorMomentum.parser_ctor, TypeTag.constant, TypeTag.custom, TypeTag.gaussian,
      TypeTag.boltzmann, TypeTag.juttner, TypeTag.radial_expansion, TypeTag.parser]

/-- C12: for every `(a_ux, a_uy, a_uz)` and every position `(x, y, z)`,
`InjectorMomentumConstant(a_ux, a_uy, a_uz).getMomentum(x, y, z)` is `(a_ux, a_uy, a_uz)`,
the same at every other position, and `getBulkMomentum(x, y, z)` is the same triple. -/
theorem InjectorMomentumConstant_constant (a_ux a_uy a_uz x y z : ℚ) :
    (InjectorMomentumConstant.mk a_ux a_uy a_uz).getMomentum x y z = ⟨a_ux, a_uy, a_uz⟩
      ∧ (∀ x' y' z' : ℚ,
          (InjectorMomentumConstant.mk a_ux a_uy a_uz).getMomentum x' y' z'
            = (InjectorMomentumConstant.mk a_ux a_uy a_uz).getMomentum x y z)
      ∧ (InjectorMomentumConstant.mk a_ux a_uy a_uz).getBulkMomentum x y z
          = ⟨a_ux, a_uy, a_uz⟩ :=
  ⟨rfl, fun _ _ _ => rfl, rfl⟩

/-- C13: for every `u_over_r` and every position `(x, y, z)`,
`InjectorMomentumRadialExpansion(u_over_r).getMomentum(x, y, z)` is
`(x*u_over_r, y*u_over_r, z*u_over_r)`; each component divided by its non-zero coordinate is
`u_over_r`; the momentum at the origin is zero; and `getBulkMomentum` equals
`getMomentum`. -/
theorem InjectorMomentumRadialExpansion_radial (u_over_r x y z : ℚ) :
    (InjectorMomentumRadialExpansion.mk u_over_r).getMomentum x y z
        = ⟨x * u_over_r, y * u_over_r, z * u_over_r⟩
      ∧ (x ≠ 0 → ((InjectorMomentumRadialExpansion.mk u_over_r).getMomentum x y z).x / x
          = u_over_r)
      ∧ (y ≠ 0 → ((InjectorMomentumRadialExpansion.mk u_over_r).getMomentum x y z).y / y
          = u_over_r)
      ∧ (z ≠ 0 → ((InjectorMomentumRadialExpansion.mk u_over_r).getMomentum x y z).z / z
          = u_over_r)
      ∧ (InjectorMomentumRadialExpansion.mk u_over_r).getMomentum 0 0 0 = ⟨0, 0, 0⟩
      ∧ (InjectorMomentumRadialExpansion.mk u_over_r).getBulkMomentum x y z
          = (InjectorMomentumRadialExpansion.mk u_over_r).getMomentum x y z := by
  refine ⟨rfl, ?_, ?_, ?_, ?_, rfl⟩
  · intro h; simp [InjectorMomentumRadialExpansion.getMomentum, h]
  · intro h; simp [InjectorMomentumRadialExpansion.getMomentum, h]
  · intro h; simp [InjectorMomentumRadialExpansion.getMomentum, h]
  · simp [InjectorMomentumRadialExpansion.getMomentum]

/-- Witness of C13 at `u_over_r = 3/2` and the position `(2, -1, 1/2)`, whose coordinates
are all non-zero. -/
theorem InjectorMomentumRadialExpansion_radial_witness :
    ((InjectorMomentumRadialExpansion.mk (3/2)).getMomentum 2 (-1) (1/2)).x / 2 = 3/2
      ∧ ((InjectorMomentumRadialExpansion.mk (3/2)).getMomentum 2 (-1) (1/2)).y / (-1) = 3/2
      ∧ ((InjectorMomentumRadialExpansion.mk (3/2)).getMomentum 2 (-1) (1/2)).z / (1/2)
          = 3/2 :=
  ⟨(InjectorMomentumRadialExpansion_radial (3/2) 2 (-1) (1/2)).2.1 (by norm_num),
   (InjectorMomentumRadialExpansion_radial (3/2) 2 (-1) (1/2)).2.2.1 (by norm_num),
   (InjectorMomentumRadialExpansion_radial (3/2) 2 (-1) (1/2)).2.2.2.1 (by norm_num)⟩

/-! ## Spectral field indices -/

/-- C14: in `SpectralFieldIndex` the fields `Ex, Ey, Ez, Bx, By, Bz, Jx, Jy, Jz, rho_old,
rho_new` take the indices `0, …, 10` in that order, `n_fields` is `11` and exceeds the index
of every field, and `divE` has the index `3` of `Bx` and of no other field. -/
theorem SpectralFieldIndex_values :
    [SpectralFieldName.Ex, .Ey, .Ez, .Bx, .By, .Bz, .Jx, .Jy, .Jz, .rho_old, .rho_new].map
        SpectralFieldIndex = [0, 1, 2, 3, 4, 5, 6, 7, 8, 9, 10]
      ∧ SpectralFieldIndex .n_fields = 11
      ∧ (∀ f : SpectralFieldName, f ≠ .n_fields →
          0 ≤ SpectralFieldIndex f ∧ SpectralFieldIndex f < SpectralFieldIndex .n_fields)
      ∧ SpectralFieldIndex .divE = SpectralFieldIndex .Bx
      ∧ SpectralFieldIndex .divE = 3
      ∧ (∀ f : SpectralFieldName, f ≠ .divE → f ≠ .Bx →
          SpectralFieldIndex f ≠ SpectralFieldIndex .divE) := by
  refine ⟨by decide, by decide, ?_, by decide, by decide, ?_⟩
  · intro f hf
    cases f <;> first | exact absurd rfl hf | decide
  · intro f h1 h2
    cases f <;> first | exact absurd rfl h1 | exact absurd rfl h2 | decide

/-! ## Load balancing -/

/-- C15: the default threshold is `1.1`; for every threshold and every positive current
efficiency, a candidate with `efficiency(candidate) ≤ threshold * efficiency(current)` is not
adopted; and with the default threshold, a current efficiency of `0.80` and a candidate
efficiency of `0.85` the ratio is `1.0625 < 1.1` and the candidate is rejected. -/
theorem LoadBalance_rejects :
    load_balance_efficiency_ratio_threshold = 11/10
      ∧ (∀ threshold current candidate : ℚ, 0 < current →
          candidate ≤ threshold * current →
          LoadBalance_adopts threshold current candidate = false)
      ∧ ((17/20 : ℚ) / (4/5) = 17/16 ∧ (17/16 : ℚ) < load_balance_efficiency_ratio_threshold
          ∧ LoadBalance_adopts load_balance_efficiency_ratio_threshold (4/5) (17/20)
              = false) := by
  refine ⟨rfl, ?_, by norm_num [load_balance_efficiency_ratio_threshold], ?_, ?_⟩
  · intro threshold current candidate hc h
    have : candidate / current ≤ threshold := by
      rw [div_le_iff₀ hc]; exact h
    simp [LoadBalance_adopts, this]
  · norm_num [load_balance_efficiency_ratio_threshold]
  · norm_num [LoadBalance_adopts, load_balance_efficiency_ratio_threshold]

/-- Witness of C15: the scenario of the specification, threshold `1.1`, current efficiency
`0.80`, candidate efficiency `0.85`. -/
theorem LoadBalance_rejects_witness :
    (17/20 : ℚ) ≤ 11/10 * (4/5) ∧ LoadBalance_adopts (11/10) (4/5) (17/20) = false :=
  ⟨by norm_num, LoadBalance_rejects.2.1 (11/10) (4/5) (17/20) (by norm_num) (by norm_num)⟩

/-! ## Divergence of B -/

/-- C16: in RZ geometry, for `dr > 0`, `dxinv = 1/dr`, `rmin ≥ 0` and `i ≥ 0`, with
`r_i = rmin + i*dr`, `r_{i+1} = rmin + (i+1)*dr` and `r_c = rmin + (i+1/2)*dr`, the value that
`warpx_computedivb` writes to `divB(i,j,0,dcomp)` is
`(r_{i+1}*Bx(i+1,j,0) - r_i*Bx(i,j,0)) / (r_c*dr) + (Bz(i,j+1,0) - Bz(i,j,0))*dzinv`. -/
theorem warpx_computedivb_rz (i j k dcomp : Int) (divB Bx By Bz : Array4)
    (dr dyinv dzinv rmin : ℚ) (hdr : 0 < dr) (hr : 0 ≤ rmin) (hi : 0 ≤ i) :
    warpx_computedivb .DIM_RZ i j k dcomp divB Bx By Bz (1 / dr) dyinv dzinv rmin i j 0 dcomp
      = ((rmin + ((i : ℚ) + 1) * dr) * Bx (i+1) j 0 0 - (rmin + (i : ℚ) * dr) * Bx i j 0 0)
            / ((rmin + ((i : ℚ) + 1/2) * dr) * dr)
          + (Bz i (j+1) 0 0 - Bz i j 0 0) * dzinv := by
  have hi' : (0 : ℚ) ≤ (i : ℚ) := by exact_mod_cast hi
  have hc : (0 : ℚ) < rmin + ((i : ℚ) + 1/2) * dr := by positivity
  have hd : rz_denominator rmin (1 / dr) i = (rmin + ((i : ℚ) + 1/2) * dr) / dr := by
    unfold rz_denominator
    field_simp
    ring
  simp only [warpx_computedivb, Array4.set, hd, and_self, if_true]
  field_simp
  ring

/-- Witness of C16 at `dr = 1/2`, `rmin = 1`, `i = 2` on the field `Bx(i,j,k) = i` with
`Bz = 0`: the written value is `(5/2 * 3 - 2 * 2) / (9/4 * 1/2) = 28/9`. -/
theorem warpx_computedivb_rz_witness :
    warpx_computedivb .DIM_RZ 2 0 0 0 (fun _ _ _ _ => 0) (fun i _ _ _ => (i : ℚ))
        (fun _ _ _ _ => 0) (fun _ _ _ _ => 0) (1 / (1/2)) 1 1 1 2 0 0 0 = 28/9 :=
  (warpx_computedivb_rz 2 0 0 0 (fun _ _ _ _ => 0) (fun i _ _ _ => (i : ℚ))
    (fun _ _ _ _ => 0) (fun _ _ _ _ => 0) (1/2) 1 1 1 (by norm_num) (by norm_num)
    (by norm_num)).trans (by norm_num)

/-- C17: in Cartesian 3D `warpx_computedivb` writes to `divB(i,j,k,dcomp)` the sum of the
three forward differences times the inverse spacings, and in XZ to `divB(i,j,0,dcomp)` the two
of `Bx` and `Bz`; whenever `Bx` does not vary along `x`, `By` along `y` and `Bz` along the last
direction, at the cell in question, the written value is `0` for all spacings, in particular
for every spatially uniform field. -/
theorem warpx_computedivb_cartesian (i j k dcomp : Int) (divB Bx By Bz : Array4)
    (dxinv dyinv dzinv rmin : ℚ) :
    warpx_computedivb .DIM_3D i j k dcomp divB Bx By Bz dxinv dyinv dzinv rmin i j k dcomp
        = (Bx (i+1) j k 0 - Bx i j k 0) * dxinv + (By i (j+1) k 0 - By i j k 0) * dyinv
          + (Bz i j (k+1) 0 - Bz i j k 0) * dzinv
      ∧ (Bx (i+1) j k 0 = Bx i j k 0 → By i (j+1) k 0 = By i j k 0 →
          Bz i j (k+1) 0 = Bz i j k 0 →
          warpx_computedivb .DIM_3D i j k dcomp divB Bx By Bz dxinv dyinv dzinv rmin
            i j k dcomp = 0)
      ∧ warpx_computedivb .DIM_XZ i j k dcomp divB Bx By Bz dxinv dyinv dzinv rmin i j 0 dcomp
        = (Bx (i+1) j 0 0 - Bx i j 0 0) * dxinv + (Bz i (j+1) 0 0 - Bz i j 0 0) * dzinv
      ∧ (Bx (i+1) j 0 0 = Bx i j 0 0 → Bz i (j+1) 0 0 = Bz i j 0 0 →
          warpx_computedivb .DIM_XZ i j k dcomp divB Bx By Bz dxinv dyinv dzinv rmin
            i j 0 dcomp = 0)
      ∧ (∀ bx b_y bz : ℚ,
          warpx_computedivb .DIM_3D i j k dcomp divB (fun _ _ _ _ => bx) (fun _ _ _ _ => b_y)
              (fun _ _ _ _ => bz) dxinv dyinv dzinv rmin i j k dcomp = 0
          ∧ warpx_computedivb .DIM_XZ i j k dcomp divB (fun _ _ _ _ => bx)
              (fun _ _ _ _ => b_y) (fun _ _ _ _ => bz) dxinv dyinv dzinv rmin i j 0 dcomp
            = 0) := by
  refine ⟨?_, ?_, ?_, ?_, ?_⟩
  · simp [warpx_computedivb, Array4.set]
  · intro h1 h2 h3
    simp [warpx_computedivb, Array4.set, h1, h2, h3]
  · simp [warpx_computedivb, Array4.set]
  · intro h1 h2
    simp [warpx_computedivb, Array4.set, h1, h2]
  · intro bx b_y bz
    simp [warpx_computedivb, Array4.set]

/-- Witness of C17: the field `Bx = y`, `By = z`, `Bz = x`, which is not uniform but has no
variation of each component along its own direction, at the cell `(1, 2, 3)`. -/
theorem warpx_computedivb_cartesian_witness :
    warpx_computedivb .DIM_3D 1 2 3 0 (fun _ _ _ _ => 7) (fun _ j _ _ => (j : ℚ))
        (fun _ _ k _ => (k : ℚ)) (fun i _ _ _ => (i : ℚ)) 2 3 5 0 1 2 3 0 = 0 :=
  (warpx_computedivb_cartesian 1 2 3 0 (fun _ _ _ _ => 7) (fun _ j _ _ => (j : ℚ))
    (fun _ _ k _ => (k : ℚ)) (fun i _ _ _ => (i : ℚ)) 2 3 5 0).2.1 rfl rfl rfl

/-- C18: the divisor `rmin*dxinv + i + 0.5` of the RZ branch of `warpx_computedivb` is at
least `1/2` for every `rmin ≥ 0`, `dxinv > 0` and radial index `i ≥ 0`, and with `rmin = 0`
it is non-zero for every integer `i`, negative ones included. -/
theorem rz_denominator_ne_zero :
    (∀ (rmin dxinv : ℚ) (i : Int), 0 ≤ rmin → 0 < dxinv → 0 ≤ i →
        1/2 ≤ rz_denominator rmin dxinv i)
      ∧ (∀ (dxinv : ℚ) (i : Int), rz_denominator 0 dxinv i ≠ 0) := by
  constructor
  · intro rmin dxinv i hr hd hi
    have hi' : (0 : ℚ) ≤ (i : ℚ) := by exact_mod_cast hi
    have : 0 ≤ rmin * dxinv := mul_nonneg hr hd.le
    unfold rz_denominator
    linarith
  · intro dxinv i h
    unfold rz_denominator at h
    have h2 : ((2 * i + 1 : Int) : ℚ) = 0 := by push_cast; linarith
    have h3 : 2 * i + 1 = 0 := by exact_mod_cast h2
    omega

/-- Witness of C18 at `rmin = 1`, `dxinv = 2`, `i = 3`. -/
theorem rz_denominator_ne_zero_witness : (1/2 : ℚ) ≤ rz_denominator 1 2 3 :=
  rz_denominator_ne_zero.1 1 2 3 (by norm_num) (by norm_num) (by norm_num)

/-! ## Moments and translation of the weights -/

/-- C19: for every order `n ∈ {1,2,3}` and every coordinate `xmid`, with `L` the index
returned by `compute_shape_factor<n>(sx, xmid)`, the sum over `k = 0, …, n` of
`(L + k) * sx[k]` is exactly `xmid`. -/
theorem compute_shape_factor_first_moment (n : Nat) (h1 : 1 ≤ n) (h3 : n ≤ 3) (sx : Buf)
    (xmid : ℚ) :
    ∑ k in Finset.range (n + 1),
        ((((compute_shape_factor n sx xmid).2 + (k : Int) : Int) : ℚ)
          * (compute_shape_factor n sx xmid).1 (k : Int)) = xmid := by
  interval_cases n <;>
    simp [compute_shape_factor, compute_shape_factor_body, exec, Finset.sum_range_succ,
      Function.update] <;>
    ring

/-- Witness of C19 at order 3 and the negative coordinate `xmid = -7/10`. -/
theorem compute_shape_factor_first_moment_witness :
    ∑ k in Finset.range (3 + 1),
        ((((compute_shape_factor 3 zeroBuf (-7/10)).2 + (k : Int) : Int) : ℚ)
          * (compute_shape_factor 3 zeroBuf (-7/10)).1 (k : Int)) = -7/10 :=
  compute_shape_factor_first_moment 3 (by decide) (by decide) zeroBuf (-7/10)

/-- Conversion to `int` commutes with adding a whole number of cells to a non-negative
coordinate. -/
theorem static_cast_int_add_nat {x : ℚ} (hx : 0 ≤ x) (m : Nat) :
    static_cast_int (x + m) = static_cast_int x + m := by
  have hm : (0 : ℚ) ≤ x + m := add_nonneg hx (Nat.cast_nonneg m)
  rw [static_cast_int_of_nonneg hx, static_cast_int_of_nonneg hm, Int.floor_add_nat]

/-- C20: for every order `n ≤ 3`, every coordinate `xmid ≥ 0` and every natural number
`m`, `compute_shape_factor<n>` at `xmid + m` performs the same stores (same slots, same
weights) as at `xmid`, leaves the same buffer, and returns an index larger by exactly `m`. -/
theorem compute_shape_factor_translate (n : Nat) (hn : n ≤ 3) (sx : Buf) (xmid : ℚ)
    (hx : 0 ≤ xmid) (m : Nat) :
    (compute_shape_factor_body n (xmid + m)).stores = (compute_shape_factor_body n xmid).stores
      ∧ (compute_shape_factor n sx (xmid + m)).1 = (compute_shape_factor n sx xmid).1
      ∧ (compute_shape_factor n sx (xmid + m)).2 = (compute_shape_factor n sx xmid).2 + m := by
  have hx2 : (0 : ℚ) ≤ xmid + 1/2 := by linarith
  have e1 := static_cast_int_add_nat hx m
  have e2 : static_cast_int (xmid + m + 1/2) = static_cast_int (xmid + 1/2) + m := by
    rw [show xmid + (m : ℚ) + 1/2 = xmid + 1/2 + m by ring]
    exact static_cast_int_add_nat hx2 m
  have hs : (compute_shape_factor_body n (xmid + m)).stores
      = (compute_shape_factor_body n xmid).stores := by
    interval_cases n
    · rfl
    · simp only [compute_shape_factor_body, e1]
      push_cast
      simp only [add_sub_add_right_eq_sub]
    · simp only [compute_shape_factor_body, e2]
      push_cast
      simp only [add_sub_add_right_eq_sub]
    · simp only [compute_shape_factor_body, e1]
      push_cast
      simp only [add_sub_add_right_eq_sub]
  refine ⟨hs, ?_, ?_⟩
  · simp only [compute_shape_factor, hs]
  · interval_cases n <;> simp only [compute_shape_factor, compute_shape_factor_body, e1, e2] <;>
      ring

/-- Witness of C20 at order 2, `xmid = 3/10`, `m = 4`. -/
theorem compute_shape_factor_translate_witness :
    (compute_shape_factor_body 2 (3/10 + (4 : Nat))).stores
        = (compute_shape_factor_body 2 (3/10)).stores
      ∧ (compute_shape_factor 2 zeroBuf (3/10 + (4 : Nat))).1
        = (compute_shape_factor 2 zeroBuf (3/10)).1
      ∧ (compute_shape_factor 2 zeroBuf (3/10 + (4 : Nat))).2
        = (compute_shape_factor 2 zeroBuf (3/10)).2 + (4 : Nat) :=
  compute_shape_factor_translate 2 (by decide) zeroBuf (3/10) (by norm_num) 4

/-! ## Mirror symmetry of the stencil -/

/-- The conversion to `int` of `c + f` is `c` for an integer `c ≥ 0` and `0 ≤ f < 1`. -/
theorem static_cast_int_int_add {c : Int} (hc : 0 ≤ c) {f : ℚ} (h0 : 0 ≤ f) (h1 : f < 1) :
    static_cast_int ((c : ℚ) + f) = c := by
  have hc' : (0 : ℚ) ≤ (c : ℚ) := by exact_mod_cast hc
  rw [static_cast_int_of_nonneg (by linarith), Int.floor_eq_iff]
  constructor <;> linarith

/-- C21: for orders 1 and 3, every integer `c ≥ 0` and `f ∈ (0,1)`, the weights that
`compute_shape_factor<n>` stores at `xmid = c + (1-f)` are those at `xmid = c + f` in reverse
order and the returned leftmost index is the same; for order 2, every integer `c ≥ 1` and
`f ∈ (-1/2,1/2)`, the same holds for `xmid = c - f` and `xmid = c + f`. -/
theorem compute_shape_factor_mirror (c : Int) (f : ℚ) :
    (∀ n : Nat, n = 1 ∨ n = 3 → 0 ≤ c → 0 < f → f < 1 →
        (compute_shape_factor_body n ((c : ℚ) + (1 - f))).stores.map Prod.snd
            = ((compute_shape_factor_body n ((c : ℚ) + f)).stores.map Prod.snd).reverse
          ∧ (compute_shape_factor_body n ((c : ℚ) + (1 - f))).ret
            = (compute_shape_factor_body n ((c : ℚ) + f)).ret)
      ∧ (1 ≤ c → -(1/2) < f → f < 1/2 →
        (compute_shape_factor_body 2 ((c : ℚ) - f)).stores.map Prod.snd
            = ((compute_shape_factor_body 2 ((c : ℚ) + f)).stores.map Prod.snd).reverse
          ∧ (compute_shape_factor_body 2 ((c : ℚ) - f)).ret
            = (compute_shape_factor_body 2 ((c : ℚ) + f)).ret) := by
  constructor
  · intro n hn hc h0 h1
    have e1 : static_cast_int ((c : ℚ) + f) = c := static_cast_int_int_add hc h0.le h1
    have e2 : static_cast_int ((c : ℚ) + (1 - f)) = c :=
      static_cast_int_int_add hc (by linarith) (by linarith)
    rcases hn with rfl | rfl
    · simp only [compute_shape_factor_body, e1, e2, List.map, List.reverse_cons,
        List.reverse_nil, List.nil_append, List.cons_append, and_true]
      congr 1
      · ring
      · congr 1; ring
    · simp only [compute_shape_factor_body, e1, e2, List.map, List.reverse_cons,
        List.reverse_nil, List.nil_append, List.cons_append, and_true]
      congr 1
      · ring
      · congr 1
        · ring
        · congr 1
          · ring
          · congr 1; ring
  · intro hc h0 h1
    have hc0 : (0 : Int) ≤ c := by omega
    have e1 : static_cast_int ((c : ℚ) + f + 1/2) = c := by
      rw [show (c : ℚ) + f + 1/2 = (c : ℚ) + (f + 1/2) by ring]
      exact static_cast_int_int_add hc0 (by linarith) (by linarith)
    have e2 : static_cast_int ((c : ℚ) - f + 1/2) = c := by
      rw [show (c : ℚ) - f + 1/2 = (c : ℚ) + (1/2 - f) by ring]
      exact static_cast_int_int_add hc0 (by linarith) (by linarith)
    simp only [compute_shape_factor_body, e1, e2, List.map, List.reverse_cons,
      List.reverse_nil, List.nil_append, List.cons_append, and_true]
    congr 1
    · ring
    · congr 1
      · ring
      · congr 1; ring

/-- Witness of C21: order 3 at `c = 2`, `f = 3/10`, and order 2 at `c = 1`, `f = -3/10`. -/
theorem compute_shape_factor_mirror_witness :
    ((compute_shape_factor_body 3 (((2 : Int) : ℚ) + (1 - 3/10))).stores.map Prod.snd
        = ((compute_shape_factor_body 3 (((2 : Int) : ℚ) + 3/10)).stores.map Prod.snd).reverse
      ∧ (compute_shape_factor_body 3 (((2 : Int) : ℚ) + (1 - 3/10))).ret
        = (compute_shape_factor_body 3 (((2 : Int) : ℚ) + 3/10)).ret)
    ∧ ((compute_shape_factor_body 2 (((1 : Int) : ℚ) - (-3/10))).stores.map Prod.snd
        = ((compute_shape_factor_body 2 (((1 : Int) : ℚ) + (-3/10))).stores.map
            Prod.snd).reverse
      ∧ (compute_shape_factor_body 2 (((1 : Int) : ℚ) - (-3/10))).ret
        = (compute_shape_factor_body 2 (((1 : Int) : ℚ) + (-3/10))).ret) :=
  ⟨(compute_shape_factor_mirror 2 (3/10)).1 3 (Or.inr rfl) (by norm_num) (by norm_num)
      (by norm_num),
   (compute_shape_factor_mirror 1 (-3/10)).2 (by norm_num) (by norm_num) (by norm_num)⟩

/-! ## Per-level step and time accessors -/

/-- Reading an `amrex::Vector` after an assignment to a valid index: the assigned slot holds
the new value and every other index reads as before. -/
theorem Vector_get_set {α : Type} (v : List α) (i : Int) (a : α) (h0 : 0 ≤ i)
    (h1 : i < v.length) :
    ∃ v', Vector_set v i a = some v'
      ∧ Vector_get v' i = some a
      ∧ ∀ l : Int, l ≠ i → Vector_get v' l = Vector_get v l := by
  have hi : i.toNat < v.length := by omega
  refine ⟨v.set i.toNat a, ?_, ?_, ?_⟩
  · simp [Vector_set, h0, hi]
  · simp [Vector_get, h0, hi]
  · intro l hl
    unfold Vector_get
    by_cases hl0 : 0 ≤ l
    · have hne : i.toNat ≠ l.toNat := by omega
      simp [hl0, List.getElem?_set_ne hne]
    · simp [hl0]

/-- C22: for every level `lev` that is a valid index of `istep` and of `t_new`: after
`setistep(lev, ii)`, `getistep(lev)` returns `ii`, `getistep(l)` is unchanged for every other
`l`, and `t_new`, `t_old`, `dt` and `nsubsteps` are unchanged; after `sett_new(lev, time)`,
`gett_new(lev)` returns `time`, `gett_new(l)` is unchanged for every other `l`, and `istep`,
`t_old`, `dt` and `nsubsteps` are unchanged. -/
theorem setistep_sett_new_frame (w : WarpXState) (lev ii : Int) (time : ℚ) (h0 : 0 ≤ lev)
    (hi : lev < w.istep.length) (ht : lev < w.t_new.length) :
    (∃ w', w.setistep lev ii = some w'
        ∧ w'.getistep lev = some ii
        ∧ (∀ l : Int, l ≠ lev → w'.getistep l = w.getistep l)
        ∧ w'.t_new = w.t_new ∧ w'.t_old = w.t_old ∧ w'.dt = w.dt
        ∧ w'.nsubsteps = w.nsubsteps
        ∧ (∀ l : Int, w'.gett_new l = w.gett_new l ∧ w'.gett_old l = w.gett_old l
            ∧ w'.getdt l = w.getdt l ∧ w'.getnsubsteps l = w.getnsubsteps l))
      ∧ (∃ w', w.sett_new lev time = some w'
        ∧ w'.gett_new lev = some time
        ∧ (∀ l : Int, l ≠ lev → w'.gett_new l = w.gett_new l)
        ∧ w'.istep = w.istep ∧ w'.t_old = w.t_old ∧ w'.dt = w.dt
        ∧ w'.nsubsteps = w.nsubsteps
        ∧ (∀ l : Int, w'.getistep l = w.getistep l)) := by
  constructor
  · obtain ⟨v', hs, hg, hf⟩ := Vector_get_set w.istep lev ii h0 hi
    refine ⟨{ w with istep := v' }, ?_, hg, hf, rfl, rfl, rfl, rfl, fun l => ⟨rfl, rfl, rfl, rfl⟩⟩
    simp [WarpXState.setistep, hs]
  · obtain ⟨v', hs, hg, hf⟩ := Vector_get_set w.t_new lev time h0 ht
    refine ⟨{ w with t_new := v' }, ?_, hg, hf, rfl, rfl, rfl, rfl, fun l => rfl⟩
    simp [WarpXState.sett_new, hs]

/-- Witness of C22 on a state with two levels, at level 1. -/
theorem setistep_sett_new_frame_witness :
    (∃ w', (WarpXState.mk [10, 20] [1, 2] [1/2, 1/4] [0, 0] [1/2, 1/4]).setistep 1 21 = some w'
        ∧ w'.getistep 1 = some 21
        ∧ (∀ l : Int, l ≠ 1 →
            w'.getistep l
              = (WarpXState.mk [10, 20] [1, 2] [1/2, 1/4] [0, 0] [1/2, 1/4]).getistep l)
        ∧ w'.t_new = [1/2, 1/4] ∧ w'.t_old = [0, 0] ∧ w'.dt = [1/2, 1/4]
        ∧ w'.nsubsteps = [1, 2])
      ∧ (∃ w', (WarpXState.mk [10, 20] [1, 2] [1/2, 1/4] [0, 0] [1/2, 1/4]).sett_new 1 (3/4)
            = some w'
        ∧ w'.gett_new 1 = some (3/4)
        ∧ w'.istep = [10, 20]) := by
  obtain ⟨⟨w1, a1, a2, a3, a4, a5, a6, a7, _⟩, ⟨w2, b1, b2, _, b4, _⟩⟩ :=
    setistep_sett_new_frame (WarpXState.mk [10, 20] [1, 2] [1/2, 1/4] [0, 0] [1/2, 1/4])
      1 21 (3/4) (by decide) (by decide) (by decide)
  exact ⟨⟨w1, a1, a2, a3, a4, a5, a6, a7⟩, ⟨w2, b1, b2, b4⟩⟩

end WarpX
